import Mathlib

/-!
Verification of the RayQuant backtesting library.

This file gives a shallow embedding, in Lean 4, of the parts of the
RayQuant code base (src/utils/indicators.py, src/core/portfolio.py,
src/core/datahub.py, src/core/timeline.py, src/core/backtester.py,
src/core/position_manager.py, src/core/strategy.py, src/core/observer.py)
that the specification's claims are about, and proves or refutes each
claim against that embedding.

Modelling conventions:
 - Python floats are modelled as rationals (ℚ); Python `round(x, 4)` is
   modelled as round-half-to-even on the scaled rational.
 - pandas DataFrames are modelled as Lean lists of row structures, kept in
   the row order the code maintains (tables are loaded sorted).
 - Calendar dates (pd.Timestamp at day resolution) are modelled by a
   year/month/day record with calendar arithmetic mirroring
   pd.DateOffset(months=k) (month addition with day clamping) and
   pd.Timedelta(days=1).
 - In-place DataFrame mutation is modelled by explicit state passing: a
   mutating function returns the post-state of the table it mutates.
 - A Python function that can raise returns Except String; the string
   names the exception the code raises.
 - The module-level global `_rate` read by win_rate is modelled as an
   explicit Option ℚ threaded in and out (none = the name was never
   assigned, so reading it raises NameError).
-/

/-! ## Rational helpers: Python float rounding -/

/-- Round a rational to the nearest integer, ties to even: the rounding
Python's builtin round uses. -/
def round_half_even (q : ℚ) : ℤ :=
  let f : ℤ := ⌊q⌋
  let r : ℚ := q - (f : ℚ)
  if r < 1/2 then f
  else if (1 : ℚ)/2 < r then f + 1
  else if f % 2 = 0 then f else f + 1

/-- Python round(x, 4): round to 4 decimal places, ties to even. -/
def round4 (q : ℚ) : ℚ := (round_half_even (q * 10000) : ℚ) / 10000

/-! ## Calendar dates

Model of pd.Timestamp at day resolution, with the month arithmetic of
pd.DateOffset and the day arithmetic of pd.Timedelta. -/

/-- A calendar date (year, month 1..12, day 1..31). -/
@[ext]
structure Date where
  year : ℕ
  month : ℕ
  day : ℕ
deriving DecidableEq, Repr

/-- Gregorian leap year rule. -/
def isLeap (y : ℕ) : Bool := (y % 4 == 0 && y % 100 != 0) || y % 400 == 0

/-- Number of days in a month of a given year. -/
def daysInMonth (y m : ℕ) : ℕ :=
  if m = 2 then (if isLeap y then 29 else 28)
  else if m = 4 ∨ m = 6 ∨ m = 9 ∨ m = 11 then 30
  else 31

/-- Lexicographic strict order on dates. -/
def Date.lt (a b : Date) : Prop :=
  a.year < b.year ∨ (a.year = b.year ∧
    (a.month < b.month ∨ (a.month = b.month ∧ a.day < b.day)))

/-- Lexicographic order on dates. -/
def Date.le (a b : Date) : Prop := Date.lt a b ∨ a = b

instance : LT Date := ⟨Date.lt⟩

instance : LE Date := ⟨Date.le⟩

instance Date.decLt (a b : Date) : Decidable (Date.lt a b) :=
  decidable_of_iff (a.year < b.year ∨ (a.year = b.year ∧
    (a.month < b.month ∨ (a.month = b.month ∧ a.day < b.day)))) Iff.rfl

instance Date.decLe (a b : Date) : Decidable (Date.le a b) :=
  decidable_of_iff (Date.lt a b ∨ a = b) Iff.rfl

instance (a b : Date) : Decidable (a < b) := Date.decLt a b

instance (a b : Date) : Decidable (a ≤ b) := Date.decLe a b

/-- The calendar day after d (pd.Timedelta(days=1) added). -/
def Date.nextDay (d : Date) : Date :=
  if d.day < daysInMonth d.year d.month then ⟨d.year, d.month, d.day + 1⟩
  else if d.month < 12 then ⟨d.year, d.month + 1, 1⟩
  else ⟨d.year + 1, 1, 1⟩

/-- The calendar day before d (pd.Timedelta(days=1) subtracted). -/
def Date.prevDay (d : Date) : Date :=
  if 1 < d.day then ⟨d.year, d.month, d.day - 1⟩
  else if 1 < d.month then ⟨d.year, d.month - 1, daysInMonth d.year (d.month - 1)⟩
  else ⟨d.year - 1, 12, 31⟩

/-- pd.DateOffset(months=k): advance k months, clamping the day of month. -/
def Date.addMonths (d : Date) (k : ℕ) : Date :=
  let t := d.month - 1 + k
  let y := d.year + t / 12
  let m := t % 12 + 1
  ⟨y, m, min d.day (daysInMonth y m)⟩

/-- Subtract n calendar days (pd.Timedelta(days=n)). -/
def Date.subDays (d : Date) : ℕ → Date
  | 0 => d
  | n + 1 => (Date.subDays d n).prevDay

/-- A valid calendar date: month in 1..12, day within the month, year ≥ 1. -/
def Date.Valid (d : Date) : Prop :=
  1 ≤ d.year ∧ 1 ≤ d.month ∧ d.month ≤ 12 ∧ 1 ≤ d.day ∧ d.day ≤ daysInMonth d.year d.month

instance (d : Date) : Decidable d.Valid :=
  decidable_of_iff (1 ≤ d.year ∧ 1 ≤ d.month ∧ d.month ≤ 12 ∧ 1 ≤ d.day ∧
    d.day ≤ daysInMonth d.year d.month) Iff.rfl

/-- A numeric key reflecting the lexicographic order on valid dates. -/
def Date.key (d : Date) : ℕ := 512 * d.year + 32 * d.month + d.day

/-- Signed number of days between civil dates (days-from-civil algorithm),
modelling (t2 - t1).days for day-resolution timestamps. -/
def dateToDays (d : Date) : ℤ :=
  let y : ℤ := if d.month ≤ 2 then (d.year : ℤ) - 1 else (d.year : ℤ)
  let era : ℤ := (if 0 ≤ y then y else y - 399) / 400
  let yoe : ℤ := y - era * 400
  let mp : ℤ := ((d.month : ℤ) + 9) % 12
  let doy : ℤ := (153 * mp + 2) / 5 + (d.day : ℤ) - 1
  let doe : ℤ := yoe * 365 + yoe / 4 - yoe / 100 + doy
  era * 146097 + doe - 719468

/-! ## Kelly criterion (src/utils/indicators.py, kelly_criterion) -/

/-- kelly_criterion: losing_rate defaults to 1 - winning_rate, losing_reward
is normalized to its absolute value, the 0-payoff and 0-loss guards return
0.0 and 1.0, and otherwise the Kelly fraction is rounded to 4 decimals. -/
def kelly_criterion (winning_rate winning_reward losing_reward : ℚ)
    (losing_rate? : Option ℚ) : ℚ :=
  let losing_rate := losing_rate?.getD (1 - winning_rate)
  let lr := |losing_reward|
  if winning_reward = 0 then 0
  else if lr = 0 then 1
  else round4 (winning_rate / lr - losing_rate / winning_reward)

/-! ## Trade log and win_rate (src/utils/indicators.py, win_rate)

The trade_log DataFrame has columns [asset, trade_date, trade_qty,
trade_price]; win_rate mutates it in place, coercing trade_qty to numeric
(non-numeric entries become NaN and are filled with 0) and adding a
cumulative_qty column.  A row models one DataFrame row; cumulative_qty is
none until win_rate assigns the column.  trade_qty is an Option: none
models a non-numeric entry. -/

/-- One row of the trade_log DataFrame. -/
@[ext]
structure TradeRow where
  asset : String
  trade_date : Date
  trade_qty : Option ℚ
  trade_price : ℚ
  cumulative_qty : Option ℚ
deriving DecidableEq, Repr

/-- Lookup in a running per-asset accumulator (0 when absent), used to model
groupby('asset')['trade_qty'].cumsum(). -/
def envGet : List (String × ℚ) → String → ℚ
  | [], _ => 0
  | p :: ps, a => if p.1 = a then p.2 else envGet ps a

/-- Update the running per-asset accumulator. -/
def envSet : List (String × ℚ) → String → ℚ → List (String × ℚ)
  | [], a, v => [(a, v)]
  | p :: ps, a, v => if p.1 = a then (a, v) :: ps else p :: envSet ps a v

/-- The in-place mutation win_rate performs on the trade log:
trade_qty := pd.to_numeric(trade_qty, errors='coerce').fillna(0) and
cumulative_qty := groupby('asset')['trade_qty'].cumsum(). -/
def mutateLogGo : List (String × ℚ) → List TradeRow → List TradeRow
  | _, [] => []
  | env, r :: rs =>
    let q := r.trade_qty.getD 0
    let c := envGet env r.asset + q
    { r with trade_qty := some q, cumulative_qty := some c } ::
      mutateLogGo (envSet env r.asset c) rs

/-- The trade log as it stands after win_rate's two column assignments. -/
def mutateLog (l : List TradeRow) : List TradeRow := mutateLogGo [] l

/-- First-occurrence deduplication, the order pandas Index.unique and
groupby keys preserve. -/
def uniqueListGo {α : Type} [DecidableEq α] (seen : List α) : List α → List α
  | [] => []
  | x :: xs =>
    if x ∈ seen then uniqueListGo seen xs else x :: uniqueListGo (x :: seen) xs

/-- Deduplicate a list keeping first occurrences. -/
def uniqueList {α : Type} [DecidableEq α] (l : List α) : List α := uniqueListGo [] l

/-- win_rate(trade_log, portfolio).  portfolio.get_asset_last_price is not
defined under src (only the test double defines it); it is passed here as
the lastPrice lookup, per the spec an externally supplied last-price
lookup.  The module global _rate is threaded as g; reading it while unset
(none) is the NameError Python raises.  Returns (result, trade log after
the in-place mutation, global after the call). -/
def win_rate (trade_log : List TradeRow) (lastPrice : String → ℚ)
    (g : Option ℚ) : Except String ℚ × List TradeRow × Option ℚ :=
  if trade_log = [] then (.ok 0, trade_log, g)
  else
    let m := mutateLog trade_log
    let closed := m.filter (fun r => decide (r.cumulative_qty = some 0))
    let closedAssets := uniqueList (closed.map (·.asset))
    let pnl : String → ℚ := fun a =>
      ((closed.filter (fun r => decide (r.asset = a))).map
        (fun r => r.trade_qty.getD 0 * r.trade_price)).sum
    let win_count := closedAssets.countP (fun a => decide (0 < pnl a))
    let total_count := closedAssets.length
    let last_trade := (uniqueList (m.map (·.asset))).filterMap
      (fun a => (m.filter (fun r => decide (r.asset = a))).getLast?)
    let openRows := last_trade.filter (fun r => decide (0 < r.cumulative_qty.getD 0))
    if openRows = [] then
      match g with
      | some r => (.ok (round4 r), m, g)
      | none => (.error ("NameError: name _rate is not defined"), m, g)
    else
      let floating_wins := openRows.countP (fun r =>
        decide (0 < (lastPrice r.asset - r.trade_price) * r.cumulative_qty.getD 0))
      let wc := win_count + floating_wins
      let tc := total_count + openRows.length
      let rate : ℚ := if 0 < tc then (wc : ℚ) / (tc : ℚ) else 0
      (.ok (round4 rate), m, some rate)

/-- The trade log the Portfolio holds after Observer.calculate_metrics has
run: calculate_metrics passes self.portfolio.trade_log to win_rate by
reference, so the portfolio's own log is the mutated table; the later
annual_return/drawdown/annual_volatility calls never touch the trade log,
so nothing restores the original columns. -/
def observer_calculate_metrics_trade_log (trade_log : List TradeRow)
    (lastPrice : String → ℚ) (g : Option ℚ) : List TradeRow :=
  (win_rate trade_log lastPrice g).2.1

/-- A trade log in which the only traded symbol is fully closed (buy 100 at
10, sell 100 at 12): the everyday backtest outcome of liquidating before
the end of the run. -/
def closedOnlyLog : List TradeRow :=
  [⟨"A", ⟨2025, 1, 1⟩, some 100, 10, none⟩,
   ⟨"A", ⟨2025, 1, 2⟩, some (-100), 12, none⟩]

/-- A one-row trade log with an open position, for exercising the
trade-log-mutation theorem. -/
def openOnlyLog : List TradeRow :=
  [⟨"A", ⟨2025, 1, 1⟩, some 5, 2, none⟩]

/-! ## annual_return (src/utils/indicators.py, annual_return)

The real-valued exponentiation (end/start) ** (365/total_days) of Python
floats is passed in as the parameter powA; none of the claims depends on
its value, only on the guard structure around it.  Note the code's
df.sort_index(ascending=True) discards its result, so the DataFrame is
used in the order given. -/

/-- Last element of a nonempty-list tail fold (df.iloc[-1]). -/
def lastPair (x : Date × ℚ) : List (Date × ℚ) → Date × ℚ
  | [] => x
  | y :: ys => lastPair y ys

/-- annual_return(start_value, end_value, total_days, df): when df is given,
start/end/total_days are re-read from its first and last rows (an empty df
raises IndexError); then ((end/start) ** (365/total_days)) - 1 when
start_value > 0 (a zero total_days raises ZeroDivisionError inside that
branch) else 0, rounded to 4 decimals. -/
def annual_return (powA : ℚ → ℚ → ℚ) (start_value end_value : ℚ)
    (total_days : ℤ) (df : Option (List (Date × ℚ))) : Except String ℚ :=
  match df with
  | some [] => .error ("IndexError: index -1 is out of bounds")
  | some (x :: xs) =>
    let last := lastPair x xs
    let days := dateToDays last.1 - dateToDays x.1
    let s := x.2
    let e := last.2
    if 0 < s then
      if days = 0 then .error ("ZeroDivisionError: division by zero")
      else .ok (round4 (powA (e / s) ((365 : ℚ) / (days : ℚ)) - 1))
    else .ok (round4 0)
  | none =>
    if 0 < start_value then
      if total_days = 0 then .error ("ZeroDivisionError: division by zero")
      else .ok (round4 (powA (end_value / start_value)
        ((365 : ℚ) / (total_days : ℚ)) - 1))
    else .ok (round4 0)

/-! ## Bar store (src/core/datahub.py) -/

/-- One row of the bar table, indexed by (trade_date, symbol). -/
structure Bar where
  trade_date : Date
  symbol : String
  close : ℚ
deriving DecidableEq, Repr

/-- The Datahub's two loaded bar tables (kept sorted by (date, symbol) by
the loader). -/
structure Datahub where
  bar_df : List Bar
  benchmark_df : List Bar
deriving DecidableEq, Repr

/-- True when both bounds are given and start_date > end_date. -/
def invalidRange : Option Date → Option Date → Bool
  | some s, some e => decide (Date.lt e s)
  | _, _ => false

/-- Date/symbol filtering of get_bars: note the branch order of the code —
a given current_date wins; otherwise a given end_date alone selects the
slice (None, end] and the start bound is never combined with it; only when
no end_date is given does a start bound apply. -/
def getBarsCore (hub : Datahub) (currentO startO endO : Option Date)
    (symbolO : Option String) (benchmark : Bool) : List Bar :=
  let df := if benchmark then hub.benchmark_df else hub.bar_df
  let byDate :=
    match currentO with
    | some d => df.filter (fun b => decide (b.trade_date = d))
    | none =>
      match endO with
      | some e => df.filter (fun b => decide (Date.le b.trade_date e))
      | none =>
        match startO with
        | some s => df.filter (fun b => decide (Date.le s b.trade_date))
        | none => df
  match symbolO with
  | some sym => byDate.filter (fun b => decide (b.symbol = sym))
  | none => byDate

/-- Datahub.get_bars: validates start_date ≤ end_date (raising ValueError
otherwise) and returns the filtered slice; the reserved, unused query
parameter is not modelled. -/
def get_bars (hub : Datahub) (currentO startO endO : Option Date)
    (symbolO : Option String) (benchmark : Bool) : Except String (List Bar) :=
  if invalidRange startO endO then
    .error ("ValueError: start_date should not be later than end_date.")
  else .ok (getBarsCore hub currentO startO endO symbolO benchmark)

/-- The slice of bar history MovingAverageStrategy.generate_signals feeds
the rolling computation: get_bars(start_date = current_time - (window - 1)
days, end_date = current_time) with window = max(ma_buy, ma_sell). -/
def ma_strategy_data (hub : Datahub) (current : Date) (ma_buy ma_sell : ℕ) :
    Except String (List Bar) :=
  get_bars hub none (some (current.subDays (max ma_buy ma_sell - 1)))
    (some current) none false

/-! ## Timelines (src/core/timeline.py, src/core/datahub.py) -/

/-- Timeline.get_main_timeline (how='union', the default used by the
backtester): ValueError on a missing/empty table, else the
first-occurrence-deduplicated list of the table's trade dates. -/
def timeline_get_main_timeline (bar_df : List Bar) : Except String (List Date) :=
  if bar_df = [] then .error ("ValueError")
  else .ok (uniqueList (bar_df.map (·.trade_date)))

/-- Stable insertion into a date list sorted ascending. -/
def insertDate (x : Date) : List Date → List Date
  | [] => [x]
  | y :: ys => if Date.le x y then x :: y :: ys else y :: insertDate x ys

/-- Ascending sort of a date list (Index.sort_values). -/
def sortDates : List Date → List Date
  | [] => []
  | x :: xs => insertDate x (sortDates xs)

/-- Datahub.get_main_timeline: empty when either table is empty, else the
union of daily dates intersected with the benchmark dates, sorted
ascending.  The missing-date printing loops have no effect on the result
and are not modelled. -/
def datahub_get_main_timeline (hub : Datahub) : List Date :=
  if hub.bar_df = [] ∨ hub.benchmark_df = [] then []
  else
    sortDates ((uniqueList (hub.bar_df.map (·.trade_date))).filter
      (fun d => decide (d ∈ uniqueList (hub.benchmark_df.map (·.trade_date)))))

/-- The timeline that actually drives
BackTester.run_backtest_without_broker: the loop iterates
Timeline(bar_df=self.data.bar_df).timeseries_iterator(), i.e. the Timeline
class's union timeline of the daily table alone. -/
def backtest_timeline (hub : Datahub) : Except String (List Date) :=
  timeline_get_main_timeline hub.bar_df

/-! ## Portfolio (src/core/portfolio.py) -/

/-- One row of portfolio.asset: [asset, quantity, cost_price, current_price]. -/
structure Position where
  asset : String
  quantity : ℚ
  cost_price : ℚ
  current_price : ℚ
deriving DecidableEq, Repr

/-- Portfolio state: cash, the position table, the append-only trade log. -/
structure Portfolio where
  cash : ℚ
  asset : List Position
  trade_log : List TradeRow
deriving DecidableEq, Repr

/-- One row of an Order's DataFrame; orders built by the Position Manager
always carry the trade_price column. -/
structure OrderRow where
  date : Date
  asset : String
  side : String
  quantity : ℚ
  trade_price : ℚ
deriving DecidableEq, Repr

/-- First position whose asset matches (self.asset[mask], row 0). -/
def findFirstPos : List Position → String → Option Position
  | [], _ => none
  | p :: ps, a => if p.asset = a then some p else findFirstPos ps a

/-- Position-table update of a successful buy row: the first matching row
gets the summed quantity and new weighted cost price, with current_price
also set to the new cost; a missing asset is appended at the end with cost
and current price equal to the trade price. -/
def buyUpdate : List Position → String → ℚ → ℚ → List Position
  | [], a, q, price => [⟨a, q, price, price⟩]
  | p :: ps, a, q, price =>
    if p.asset = a then
      let nq := p.quantity + q
      let nc := (p.quantity * p.cost_price + q * price) / nq
      ⟨a, nq, nc, nc⟩ :: ps
    else p :: buyUpdate ps a q price

/-- Position-table update of a successful sell row: the first matching row
is removed when fully sold, otherwise its quantity is decremented and its
current_price set to the sell price. -/
def sellUpdate : List Position → String → ℚ → ℚ → List Position
  | [], _, _, _ => []
  | p :: ps, a, q, price =>
    if p.asset = a then
      if p.quantity - q = 0 then ps
      else ⟨a, p.quantity - q, p.cost_price, price⟩ :: ps
    else p :: sellUpdate ps a q price

/-- One buy row: raise InsufficientCash when cash < quantity*price, else
deduct cash, update positions, append a positive trade-log row.  On error
the state is returned untouched (the check precedes every mutation). -/
def buyRow (p : Portfolio) (r : OrderRow) : Portfolio × Option String :=
  let total_cost := r.quantity * r.trade_price
  if p.cash < total_cost then (p, some ("InsufficientCash"))
  else
    ({ cash := p.cash - total_cost,
       asset := buyUpdate p.asset r.asset r.quantity r.trade_price,
       trade_log := p.trade_log ++
         [⟨r.asset, r.date, some r.quantity, r.trade_price, none⟩] }, none)

/-- Portfolio.buy: processes the order's rows in sequence; a raising row
stops the loop but the mutations of the rows already processed persist. -/
def buy : Portfolio → List OrderRow → Portfolio × Option String
  | p, [] => (p, none)
  | p, r :: rs =>
    match buyRow p r with
    | (p2, none) => buy p2 rs
    | (p2, some e) => (p2, some e)

/-- One sell row: raise UnknownPosition when the symbol is not held,
InsufficientQuantity when selling more than held, else credit cash, update
positions, append a negative trade-log row. -/
def sellRow (p : Portfolio) (r : OrderRow) : Portfolio × Option String :=
  match findFirstPos p.asset r.asset with
  | none => (p, some ("UnknownPosition"))
  | some pos =>
    if pos.quantity < r.quantity then (p, some ("InsufficientQuantity"))
    else
      ({ cash := p.cash + r.quantity * r.trade_price,
         asset := sellUpdate p.asset r.asset r.quantity r.trade_price,
         trade_log := p.trade_log ++
           [⟨r.asset, r.date, some (-r.quantity), r.trade_price, none⟩] }, none)

/-- Portfolio.sell: processes the order's rows in sequence; a raising row
stops the loop but the mutations of the rows already processed persist. -/
def sell : Portfolio → List OrderRow → Portfolio × Option String
  | p, [] => (p, none)
  | p, r :: rs =>
    match sellRow p r with
    | (p2, none) => sell p2 rs
    | (p2, some e) => (p2, some e)

/-- Portfolio.get_asset_value: the snapshot df_bar =
get_bars(current_date=current_date) is fetched once, and EVERY position is
valued with df_bar.iloc[0]['close'] (the first row of the whole snapshot,
whatever its symbol) when the snapshot is non-empty; each position's own
current_price is used only when the whole snapshot is empty. -/
def get_asset_value (p : Portfolio) (current_date : Date) (hub : Datahub) : ℚ :=
  let df_bar := getBarsCore hub (some current_date) none none none false
  p.asset.foldl (fun tv pos =>
    tv + pos.quantity * (match df_bar with
      | [] => pos.current_price
      | b :: _ => b.close)) 0

/-- Portfolio.total_value = cash + market value of positions. -/
def total_value (p : Portfolio) (current_date : Date) (hub : Datahub) : ℚ :=
  p.cash + get_asset_value p current_date hub

/-- Definition written from C2's words, for comparison: cash plus, for each
held position, quantity times the Bar Store's price for THAT SYMBOL on the
date when such a row exists, otherwise that position's last recorded
price. -/
def claim_total_value (p : Portfolio) (current_date : Date) (hub : Datahub) : ℚ :=
  p.cash + (p.asset.map (fun pos =>
    pos.quantity * (match hub.bar_df.filter (fun b =>
        decide (b.trade_date = current_date) && decide (b.symbol = pos.asset)) with
      | [] => pos.current_price
      | b :: _ => b.close))).sum

/-! ## Position manager (src/core/position_manager.py) -/

/-- str.isdigit(): true on a non-empty all-digit string. -/
def pyIsDigit (s : String) : Bool := !s.isEmpty && s.toList.all Char.isDigit

/-- str.startswith(pre) on the character lists. -/
def pyStartsWith (s pre : String) : Bool := List.isPrefixOf pre.toList s.toList

/-- get_min_lot: 200 shares for an asset that is all digits AND starts with
'688', else 100. -/
def get_min_lot (asset : String) : ℕ :=
  if pyIsDigit asset && pyStartsWith asset ("688") then 200 else 100

/-- The lot rule as C7 words it (200 for symbols whose code starts with
'688', otherwise 100 — no all-digits requirement), for comparison. -/
def claim_min_lot (asset : String) : ℕ :=
  if pyStartsWith asset ("688") then 200 else 100

/-- One row of a Signal's DataFrame as the position manager reads it: the
symbol index level and the signal column. -/
structure SignalRow where
  symbol : String
  signal : String
deriving DecidableEq, Repr

/-- str.upper for the ASCII signal labels (on the character list). -/
def strUpper (s : String) : String := String.mk (s.data.map Char.toUpper)

/-- EqualWeightPositionManager.transform_signals_to_orders.  The per-symbol
close price comes from data.get_bar(current_date), a Datahub method whose
definition is not under src; modelled from the spec: orders carry the
current date's close price used for sizing, supplied here as the close
lookup. -/
def transform_signals_to_orders (signals : List SignalRow) (p : Portfolio)
    (close : String → ℚ) (t : Date) : List OrderRow :=
  let sigs := signals.map (fun r => { r with signal := strUpper r.signal })
  let sells := (sigs.filter (fun r => decide (r.signal = "SELL"))).filterMap
    (fun r =>
      match findFirstPos p.asset r.symbol with
      | some pos =>
        if 0 < pos.quantity then
          some ⟨t, r.symbol, "SELL", pos.quantity, close r.symbol⟩
        else none
      | none => none)
  let buys := sigs.filter (fun r => decide (r.signal = "BUY"))
  let num_buy := buys.length
  let buyOrders :=
    if 0 < num_buy ∧ 0 < p.cash then
      let allocated_cash := p.cash / (num_buy : ℚ)
      buys.filterMap (fun r =>
        let close_price := close r.symbol
        let min_lot := get_min_lot r.symbol
        let raw_qty := allocated_cash / close_price
        let order_qty : ℚ := (⌊raw_qty / (min_lot : ℚ)⌋ : ℚ) * (min_lot : ℚ)
        if (min_lot : ℚ) ≤ order_qty then
          some ⟨t, r.symbol, "BUY", order_qty, close_price⟩
        else none)
    else []
  sells ++ buyOrders

/-- The BUY orders C7 describes, written from the (amended) claim's words:
allocated = cash / n computed once; for each BUY symbol s with close P and
lot L, the order quantity is floor(allocated/P/L)*L, emitted exactly when
at least one lot. -/
def claim_buy_orders (buySymbols : List String) (cash : ℚ)
    (close : String → ℚ) (t : Date) : List OrderRow :=
  let n := buySymbols.length
  let allocated := cash / (n : ℚ)
  buySymbols.filterMap (fun s =>
    let P := close s
    let L := get_min_lot s
    let q : ℚ := (⌊allocated / P / (L : ℚ)⌋ : ℚ) * (L : ℚ)
    if (L : ℚ) ≤ q then some ⟨t, s, "BUY", q, P⟩ else none)

/-! ## Concrete scenarios used by the claims -/

/-- C2 scenario: the bar table has a row only for symbol B on the valuation
date, while the portfolio holds 10 shares of symbol A marked at 100. -/
def mixedSymbolHub : Datahub := ⟨[⟨⟨2025, 1, 2⟩, "B", 5⟩], []⟩

/-- Portfolio holding only symbol A (10 shares, current_price 100), no cash. -/
def holdsOnlyA : Portfolio := ⟨0, [⟨"A", 10, 100, 100⟩], []⟩

/-- C3 scenario: two bars of one symbol on consecutive dates. -/
def twoDayHub : Datahub :=
  ⟨[⟨⟨2025, 1, 1⟩, "A", 1⟩, ⟨⟨2025, 1, 2⟩, "A", 2⟩], []⟩

/-- C4 scenario: a daily row on Jan 1 and a benchmark row only on Jan 2. -/
def disjointBenchHub : Datahub :=
  ⟨[⟨⟨2025, 1, 1⟩, "A", 1⟩], [⟨⟨2025, 1, 2⟩, "X", 1⟩]⟩

/-- C5 scenario: 200 cash. -/
def smallCashPortfolio : Portfolio := ⟨200, [], []⟩

/-- C5 scenario: a two-row buy order; the first row costs 100 (within
cash), the second 1000 (beyond the remaining 100). -/
def twoRowBuyOrder : List OrderRow :=
  [⟨⟨2025, 1, 2⟩, "A", "BUY", 100, 1⟩, ⟨⟨2025, 1, 2⟩, "B", "BUY", 1000, 1⟩]

/-- C5 witness scenario: an empty portfolio and a 1-share buy. -/
def brokePortfolio : Portfolio := ⟨0, [], []⟩

/-- C7 scenario: one BUY signal for a symbol that starts with '688' but is
not all digits. -/
def sigs688A8 : List SignalRow := [⟨"688A8", "BUY"⟩]

/-- C7 scenario: 15000 cash, no positions. -/
def cashOnlyPortfolio : Portfolio := ⟨15000, [], []⟩

/-- C7 witness scenario: one lower-case buy signal for a plain symbol. -/
def sigsLowerBuy : List SignalRow := [⟨"AAA", "buy"⟩]

/-- C7 witness scenario: 10000 cash, no positions. -/
def tenKPortfolio : Portfolio := ⟨10000, [], []⟩

/-! ## Drawdown (src/utils/indicators.py, drawdown) -/

/-- Stable insertion into a (date, value) series sorted ascending by date. -/
def insertPair (x : Date × ℚ) : List (Date × ℚ) → List (Date × ℚ)
  | [] => [x]
  | y :: ys => if Date.le x.1 y.1 then x :: y :: ys else y :: insertPair x ys

/-- df.sort_index() on the (date, value) series. -/
def sortByDate : List (Date × ℚ) → List (Date × ℚ)
  | [] => []
  | x :: xs => insertPair x (sortByDate xs)

/-- Running maximum (Series.cummax) continued from a seed. -/
def cummaxGo (c : ℚ) : List ℚ → List ℚ
  | [] => []
  | v :: vs => max c v :: cummaxGo (max c v) vs

/-- Series.cummax of a value list. -/
def cummaxList : List ℚ → List ℚ
  | [] => []
  | v :: vs => v :: cummaxGo v vs

/-- The drawdown series (cummax - value)/cummax, pointwise. -/
def ddOf (l : List ℚ) : List ℚ :=
  List.zipWith (fun m v => (m - v) / m) (cummaxList l) l

/-- The drawdown series continued from a running-max seed, used only in
proofs about ddOf. -/
def ddList (c : ℚ) (vs : List ℚ) : List ℚ :=
  List.zipWith (fun m v => (m - v) / m) (cummaxGo c vs) vs

/-- Series.max of a list (the code applies it only to non-empty data). -/
def seriesMax : List ℚ → ℚ
  | [] => 0
  | x :: xs => xs.foldl max x

/-- Max drawdown of one interval's data: 0 for an empty interval, else the
maximum of the drawdown series. -/
def bucketDD (l : List ℚ) : ℚ := if l = [] then 0 else seriesMax (ddOf l)

/-- The while-loop of drawdown: from current_start, bucket end is
current_start + interval_months months - 1 day, truncated to end_date; the
bucket's data is the series restricted to [current_start, current_end];
the next bucket starts the following day.  The fuel only bounds the number
of iterations: with interval_months ≥ 1 and valid dates a fuel of
end_date.key + 1 is never exhausted (for interval_months = 0 the Python
loop would not terminate at all). -/
def ddIntervals (ser : List (Date × ℚ)) (months : ℕ) (endD : Date) :
    ℕ → Date → List ((Date × Date) × ℚ)
  | 0, _ => []
  | fuel + 1, cs =>
    if Date.le cs endD then
      let ce0 := (cs.addMonths months).prevDay
      let ce := if Date.lt endD ce0 then endD else ce0
      let dataB := ser.filter (fun pr =>
        decide (Date.le cs pr.1) && decide (Date.le pr.1 ce))
      let mdd := bucketDD (dataB.map (·.2))
      ((cs, ce), mdd) :: ddIntervals ser months endD fuel ce.nextDay
    else []

/-- Date of the last row (index.max() of the sorted series). -/
def lastDateOf : Date → List (Date × ℚ) → Date
  | d, [] => d
  | _, p :: ps => lastDateOf p.1 ps

/-- drawdown(df, interval_months): sorts the series, builds the per-bucket
table (drawdown column rounded to 4 decimals, MultiIndex (start, end)) and
returns it with the overall maximum drawdown and the owning bucket's
range (idxmax takes the first bucket attaining the maximum); an empty
series reaches idxmax on an empty column and raises ValueError. -/
def drawdown (df : List (Date × ℚ)) (interval_months : ℕ) :
    Except String (List ((Date × Date) × ℚ) × (ℚ × (Date × Date))) :=
  match sortByDate df with
  | [] => .error ("ValueError: attempt to get argmax of an empty sequence")
  | x :: xs =>
    let start_date := x.1
    let end_date := lastDateOf x.1 xs
    let intervals :=
      ddIntervals (x :: xs) interval_months end_date (end_date.key + 1) start_date
    let tbl := intervals.map (fun e => (e.1, round4 e.2))
    match tbl with
    | [] => .error ("ValueError: attempt to get argmax of an empty sequence")
    | t0 :: ts =>
      let overall := (ts.map (·.2)).foldl max t0.2
      let maxRow := ts.foldl (fun best q => if best.2 < q.2 then q else best) t0
      .ok (tbl, (overall, maxRow.1))

/-- Largest proportional decline from the level x over a later-value list. -/
def declMax (x : ℚ) (l : List ℚ) : ℚ :=
  l.foldl (fun m v => max m ((x - v) / x)) 0

/-- The maximum proportional decline as C6 words it: the largest
(v_i - v_j)/v_i over index pairs i ≤ j of the bucket's values (0 when
fewer than two values). -/
def pairsDecline : List ℚ → ℚ
  | [] => 0
  | x :: xs => max (declMax x xs) (pairsDecline xs)

/-- The bucket layout C6 describes, relative to a running start date:
either the start is already past end_date and there are no buckets, or the
first bucket starts exactly there, ends at min(start + interval_months
months - 1 day, end_date), carries the max drawdown of the bucket's slice
of the series, and the remaining buckets tile on from the following day. -/
def BucketsFrom (ser : List (Date × ℚ)) (months : ℕ) (endD : Date) :
    Date → List ((Date × Date) × ℚ) → Prop
  | cs, [] => ¬ Date.le cs endD
  | cs, ((s, e), q) :: rest =>
    Date.le cs endD ∧ s = cs ∧
    e = (if Date.lt endD (cs.addMonths months).prevDay then endD
         else (cs.addMonths months).prevDay) ∧
    q = bucketDD ((ser.filter (fun pr =>
          decide (Date.le cs pr.1) && decide (Date.le pr.1 e))).map (·.2)) ∧
    BucketsFrom ser months endD e.nextDay rest

/-- The 10-day value series of C6's concrete example, on consecutive days
2025-01-01 .. 2025-01-10. -/
def exampleSeries : List (Date × ℚ) :=
  [(⟨2025, 1, 1⟩, 100), (⟨2025, 1, 2⟩, 110), (⟨2025, 1, 3⟩, 105),
   (⟨2025, 1, 4⟩, 120), (⟨2025, 1, 5⟩, 115), (⟨2025, 1, 6⟩, 130),
   (⟨2025, 1, 7⟩, 125), (⟨2025, 1, 8⟩, 140), (⟨2025, 1, 9⟩, 135),
   (⟨2025, 1, 10⟩, 150)]

/-! ## Theorems -/

/-! ### Helper lemmas about the trade-log mutation -/

theorem envGet_envSet (env : List (String × ℚ)) (a b : String) (v : ℚ) :
    envGet (envSet env a v) b = if b = a then v else envGet env b := by
  induction env with
  | nil =>
    by_cases h : b = a
    · simp [envSet, envGet, h]
    · have hab : ¬ a = b := fun h2 => h h2.symm
      simp [envSet, envGet, h, hab]
  | cons p ps ih =>
    by_cases hp : p.1 = a
    · by_cases hb : b = a
      · simp [envSet, envGet, hp, hb]
      · have hab : ¬ a = b := fun h2 => hb h2.symm
        have hpb : ¬ p.1 = b := by rw [hp]; exact hab
        simp [envSet, envGet, hp, hb, hab, hpb]
    · by_cases hpb : p.1 = b
      · have hba : ¬ b = a := fun h2 => hp (by rw [hpb, h2])
        simp [envSet, envGet, hp, hpb, hba]
      · simp [envSet, envGet, hp, hpb, ih]

theorem mutateLogGo_length (l : List TradeRow) (env : List (String × ℚ)) :
    (mutateLogGo env l).length = l.length := by
  induction l generalizing env with
  | nil => rfl
  | cons r rs ih => simpa [mutateLogGo] using ih _

theorem mutateLogGo_get (l : List TradeRow) (env : List (String × ℚ)) (i : ℕ)
    (h : i < l.length) (hm : i < (mutateLogGo env l).length) :
    (mutateLogGo env l).get ⟨i, hm⟩ =
      { l.get ⟨i, h⟩ with
        trade_qty := some ((l.get ⟨i, h⟩).trade_qty.getD 0),
        cumulative_qty := some (envGet env ((l.get ⟨i, h⟩).asset) +
          (((l.take (i + 1)).filter
            (fun r => decide (r.asset = (l.get ⟨i, h⟩).asset))).map
            (fun r => r.trade_qty.getD 0)).sum) } := by
  induction l generalizing env i with
  | nil => exact absurd h (by simp)
  | cons r rs ih =>
    cases i with
    | zero => simp [mutateLogGo]
    | succ j =>
      have hj : j < rs.length := by simpa using h
      have hjm : j < (mutateLogGo (envSet env r.asset (envGet env r.asset +
          r.trade_qty.getD 0)) rs).length := by
        simpa [mutateLogGo_length] using hj
      have key := ih (envSet env r.asset (envGet env r.asset + r.trade_qty.getD 0)) j hj hjm
      simp only [mutateLogGo, List.get_cons_succ] at key ⊢
      rw [key, envGet_envSet, List.take_succ_cons, List.filter_cons]
      by_cases ha : r.asset = (rs.get ⟨j, hj⟩).asset
      · have e1 : envGet env ((rs.get ⟨j, hj⟩).asset) = envGet env r.asset := by rw [ha]
        rw [if_pos ha.symm, if_pos (decide_eq_true ha), List.map_cons, List.sum_cons]
        simp only [TradeRow.mk.injEq, Option.some.injEq, e1, true_and, and_true]
        ring
      · have ha2 : ¬ (rs.get ⟨j, hj⟩).asset = r.asset := fun h2 => ha h2.symm
        simp only [decide_eq_true_eq, if_neg ha, if_neg ha2]

theorem mutateLogGo_cum_isSome (l : List TradeRow) (env : List (String × ℚ)) :
    ∀ r ∈ mutateLogGo env l, r.cumulative_qty ≠ none := by
  induction l generalizing env with
  | nil => simp [mutateLogGo]
  | cons x xs ih =>
    intro r hr
    simp only [mutateLogGo, List.mem_cons] at hr
    rcases hr with h | h
    · subst h; simp
    · exact ih _ r h

/-- C8 counterexample: the claim says the general case returns
winning_rate/|losing_reward| - losing_rate/winning_reward, but the code
returns that value rounded to 4 decimal places; at winning_rate = 1/3,
winning_reward = 1, losing_reward = 1 the code returns -0.3333 while the
claimed formula gives -1/3. -/
theorem kelly_formula_counterexample :
    kelly_criterion (1/3) 1 1 none = -3333/10000 ∧
    (1 : ℚ)/3 / |(1 : ℚ)| - (1 - 1/3) / 1 ≠ -3333/10000 := by
  constructor
  · norm_num [kelly_criterion, round4, round_half_even]
  · norm_num

/-- C8 (amended): kelly_criterion normalizes losing_reward to its absolute
value, returns 0.0 when winning_reward = 0, returns 1.0 when the normalized
losing_reward = 0, and otherwise returns the Kelly fraction
winning_rate/|losing_reward| - losing_rate/winning_reward, with losing_rate
defaulting to 1 - winning_rate, ROUNDED TO 4 DECIMAL PLACES; in particular
kelly_criterion(0.5, 0, 1) = 0.0, kelly_criterion(0.5, 2, 0) = 1.0 and
kelly_criterion(0.5, 2, -1) = 0.25. -/
theorem kelly_amended :
    (∀ wr lrd lrate?, kelly_criterion wr 0 lrd lrate? = 0) ∧
    (∀ wr wrd lrate?, wrd ≠ 0 → kelly_criterion wr wrd 0 lrate? = 1) ∧
    (∀ wr wrd lrd : ℚ, wrd ≠ 0 → lrd ≠ 0 →
      kelly_criterion wr wrd lrd none = round4 (wr / |lrd| - (1 - wr) / wrd)) ∧
    kelly_criterion (1/2) 0 1 none = 0 ∧
    kelly_criterion (1/2) 2 0 none = 1 ∧
    kelly_criterion (1/2) 2 (-1) none = 1/4 := by
  refine ⟨?_, ?_, ?_, ?_, ?_, ?_⟩
  · intro wr lrd lrate?
    simp [kelly_criterion]
  · intro wr wrd lrate? h
    simp [kelly_criterion, h]
  · intro wr wrd lrd h h2
    simp [kelly_criterion, h, abs_eq_zero, h2]
  · norm_num [kelly_criterion]
  · norm_num [kelly_criterion]
  · norm_num [kelly_criterion, round4, round_half_even]

/-- C8 witness: the general-case clause of kelly_amended applied at the
concrete input (0.5, 2, -1). -/
theorem kelly_amended_witness :
    (2 : ℚ) ≠ 0 ∧ (-1 : ℚ) ≠ 0 ∧
    kelly_criterion (1/2) 2 (-1) none = round4 ((1:ℚ)/2 / |(-1 : ℚ)| - (1 - 1/2) / 2) :=
  ⟨by norm_num, by norm_num,
    kelly_amended.2.2.1 (1/2) 2 (-1) (by norm_num) (by norm_num)⟩

/-- C1 (code evaluation at the failing input): on a trade log whose only
symbol has been fully closed (buy 100 at 10 then sell 100 at 12) there is
no row with positive final cumulative quantity, so win_rate never assigns
the module global _rate, and the final return round(_rate, 4) reads an
unset name: the call raises NameError instead of returning the win rate
the claim describes. -/
theorem win_rate_unset_global_eval :
    (win_rate closedOnlyLog (fun _ => 0) none).1 =
      .error ("NameError: name _rate is not defined") := by
  simp [win_rate, closedOnlyLog, mutateLog, mutateLogGo, envGet, envSet,
    uniqueList, uniqueListGo]

/-- C10: win_rate mutates the trade log passed to it, and
Observer.calculate_metrics passes the portfolio's own trade log, so after
it runs the portfolio's log is exactly the mutated table: row i keeps its
asset, date and price, its trade_qty is coerced to a number (a non-numeric
entry becomes 0), and it gains a cumulative_qty column holding the running
per-asset sum of coerced quantities up to row i; whenever some original
row lacked the cumulative_qty column the post-state differs from the
original log, and nothing restores the original columns. -/
theorem win_rate_trade_log_mutation (log : List TradeRow) (lp : String → ℚ)
    (g : Option ℚ) :
    observer_calculate_metrics_trade_log log lp g = mutateLog log ∧
    (∀ i (h : i < log.length) (hm : i < (mutateLog log).length),
      (mutateLog log).get ⟨i, hm⟩ =
        { log.get ⟨i, h⟩ with
          trade_qty := some ((log.get ⟨i, h⟩).trade_qty.getD 0),
          cumulative_qty := some ((((log.take (i + 1)).filter
            (fun r => decide (r.asset = (log.get ⟨i, h⟩).asset))).map
            (fun r => r.trade_qty.getD 0)).sum) }) ∧
    ((∃ r ∈ log, r.cumulative_qty = none) →
      observer_calculate_metrics_trade_log log lp g ≠ log) := by
  have h1 : observer_calculate_metrics_trade_log log lp g = mutateLog log := by
    unfold observer_calculate_metrics_trade_log win_rate
    by_cases h : log = []
    · simp [h, mutateLog, mutateLogGo]
    · simp only [if_neg h]
      split
      · cases g <;> rfl
      · rfl
  refine ⟨h1, ?_, ?_⟩
  · intro i h hm
    have hm2 : i < (mutateLogGo [] log).length := by simpa [mutateLog] using hm
    simp only [mutateLog]
    rw [mutateLogGo_get log [] i h hm2]
    simp [envGet]
  · rintro ⟨r, hr, hnone⟩ heq
    rw [h1] at heq
    have hmem : r ∈ mutateLog log := by rw [heq]; exact hr
    exact mutateLogGo_cum_isSome log [] r hmem hnone

/-- C10 witness: the mutation theorem applied to a concrete one-row log. -/
theorem win_rate_trade_log_mutation_witness :
    (∃ r ∈ openOnlyLog, r.cumulative_qty = none) ∧
    observer_calculate_metrics_trade_log openOnlyLog (fun _ => 0) none ≠ openOnlyLog := by
  have hex : ∃ r ∈ openOnlyLog, r.cumulative_qty = none :=
    ⟨⟨"A", ⟨2025, 1, 1⟩, some 5, 2, none⟩, by simp [openOnlyLog], rfl⟩
  exact ⟨hex, (win_rate_trade_log_mutation openOnlyLog (fun _ => 0) none).2.2 hex⟩

/-! ### Helper lemmas about the date order -/

theorem Date.lt_irrefl (a : Date) : ¬ Date.lt a a := by
  unfold Date.lt; omega

theorem Date.lt_trans {a b c : Date} (h1 : Date.lt a b) (h2 : Date.lt b c) :
    Date.lt a c := by
  unfold Date.lt at h1 h2 ⊢; omega

theorem Date.le_refl (a : Date) : Date.le a a := Or.inr rfl

theorem Date.le_of_lt {a b : Date} (h : Date.lt a b) : Date.le a b := Or.inl h

theorem Date.not_lt_of_le {a b : Date} (h : Date.le a b) : ¬ Date.lt b a := by
  rcases h with h | rfl
  · intro h2; exact Date.lt_irrefl a (Date.lt_trans h h2)
  · exact Date.lt_irrefl a

theorem Date.lt_or_ge (a b : Date) : Date.lt a b ∨ Date.le b a := by
  by_cases h1 : Date.lt a b
  · exact Or.inl h1
  · right
    rcases a with ⟨ay, am, ad⟩
    rcases b with ⟨by2, bm, bd⟩
    unfold Date.le Date.lt
    unfold Date.lt at h1
    dsimp only at h1 ⊢
    simp only [Date.mk.injEq]
    omega

theorem Date.lt_of_not_le {a b : Date} (h : ¬ Date.le a b) : Date.lt b a := by
  rcases Date.lt_or_ge b a with h2 | h2
  · exact h2
  · exact absurd h2 h

theorem Date.le_of_not_lt {a b : Date} (h : ¬ Date.lt a b) : Date.le b a := by
  rcases Date.lt_or_ge a b with h2 | h2
  · exact absurd h2 h
  · exact h2

theorem Date.lt_of_le_of_ne {a b : Date} (h : Date.le a b) (hne : a ≠ b) :
    Date.lt a b := h.resolve_right hne

theorem Date.le_antisymm {a b : Date} (h1 : Date.le a b) (h2 : Date.le b a) :
    a = b := by
  rcases h1 with h1 | rfl
  · rcases h2 with h2 | rfl
    · exact absurd (Date.lt_trans h1 h2) (Date.lt_irrefl a)
    · rfl
  · rfl

/-! ### Helper lemmas about uniqueList and sortDates -/

theorem mem_uniqueListGo {α : Type} [DecidableEq α] (l : List α) :
    ∀ (seen : List α) (x : α), x ∈ uniqueListGo seen l ↔ x ∈ l ∧ x ∉ seen := by
  induction l with
  | nil => intro seen x; simp [uniqueListGo]
  | cons y ys ih =>
    intro seen x
    by_cases hy : y ∈ seen
    · simp only [uniqueListGo, if_pos hy, ih, List.mem_cons]
      constructor
      · rintro ⟨h1, h2⟩; exact ⟨Or.inr h1, h2⟩
      · rintro ⟨h1 | h1, h2⟩
        · exact absurd (h1 ▸ hy) h2
        · exact ⟨h1, h2⟩
    · simp only [uniqueListGo, if_neg hy, List.mem_cons, ih]
      constructor
      · rintro (rfl | ⟨h1, h2⟩)
        · exact ⟨Or.inl rfl, hy⟩
        · exact ⟨Or.inr h1, fun hx => h2 (Or.inr hx)⟩
      · rintro ⟨rfl | h1, h2⟩
        · exact Or.inl rfl
        · by_cases hxy : x = y
          · exact Or.inl hxy
          · refine Or.inr ⟨h1, ?_⟩
            rintro (h3 | h3)
            · exact hxy h3
            · exact h2 h3

theorem mem_uniqueList {α : Type} [DecidableEq α] (l : List α) (x : α) :
    x ∈ uniqueList l ↔ x ∈ l := by
  simp [uniqueList, mem_uniqueListGo]

theorem uniqueListGo_sublist {α : Type} [DecidableEq α] (l : List α) :
    ∀ seen : List α, (uniqueListGo seen l).Sublist l := by
  induction l with
  | nil => intro seen; simp [uniqueListGo]
  | cons y ys ih =>
    intro seen
    by_cases hy : y ∈ seen
    · simp only [uniqueListGo, if_pos hy]
      exact (ih seen).trans (List.sublist_cons_self y ys)
    · simp only [uniqueListGo, if_neg hy]
      exact (ih (y :: seen)).cons₂ y

theorem uniqueList_pairwise_lt (l : List Date)
    (h : l.Pairwise Date.le) : (uniqueList l).Pairwise Date.lt := by
  have hsub : (uniqueList l).Sublist l := uniqueListGo_sublist l []
  have hle : (uniqueList l).Pairwise Date.le := h.sublist hsub
  have hnd : ∀ seen : List Date, ∀ l2 : List Date,
      (uniqueListGo seen l2).Pairwise (fun a b => a ≠ b) := by
    intro seen l2
    induction l2 generalizing seen with
    | nil => simp [uniqueListGo]
    | cons y ys ih =>
      by_cases hy : y ∈ seen
      · simpa only [uniqueListGo, if_pos hy] using ih seen
      · simp only [uniqueListGo, if_neg hy, List.pairwise_cons]
        refine ⟨?_, ih (y :: seen)⟩
        intro a ha heq
        refine ((mem_uniqueListGo ys (y :: seen) a).mp ha).2 ?_
        rw [← heq]
        exact List.mem_cons_self y seen
  have hne : (uniqueList l).Pairwise (fun a b => a ≠ b) := hnd [] l
  exact (hle.and hne).imp (fun h2 => Date.lt_of_le_of_ne h2.1 h2.2)

theorem mem_insertDate (x d : Date) (l : List Date) :
    d ∈ insertDate x l ↔ d = x ∨ d ∈ l := by
  induction l with
  | nil => simp [insertDate]
  | cons y ys ih =>
    by_cases h : Date.le x y
    · simp [insertDate, if_pos h]
    · simp only [insertDate, if_neg h, List.mem_cons, ih]
      tauto

theorem mem_sortDates (d : Date) (l : List Date) :
    d ∈ sortDates l ↔ d ∈ l := by
  induction l with
  | nil => simp [sortDates]
  | cons y ys ih => simp [sortDates, mem_insertDate, ih]

/-! ### Generic fold helper -/

theorem foldl_add_map {α : Type} (l : List α) (f : α → ℚ) (init : ℚ) :
    l.foldl (fun tv x => tv + f x) init = init + (l.map f).sum := by
  induction l generalizing init with
  | nil => simp
  | cons x xs ih => simp [ih, add_assoc]

/-- C2 counterexample: with a bar row only for symbol B (close 5) on the
date and a position of 10 shares of A marked at 100, total_value prices
the A position with B's close (10*5 = 50), while the claim's per-symbol
resolution would fall back to A's last recorded price (10*100 = 1000). -/
theorem total_value_claim_counterexample :
    total_value holdsOnlyA ⟨2025, 1, 2⟩ mixedSymbolHub = 50 ∧
    claim_total_value holdsOnlyA ⟨2025, 1, 2⟩ mixedSymbolHub = 1000 ∧
    total_value holdsOnlyA ⟨2025, 1, 2⟩ mixedSymbolHub ≠
      claim_total_value holdsOnlyA ⟨2025, 1, 2⟩ mixedSymbolHub := by
  refine ⟨?_, ?_, ?_⟩ <;>
    norm_num [total_value, claim_total_value, get_asset_value, getBarsCore,
      mixedSymbolHub, holdsOnlyA, List.filter,
      show (decide (("B" : String) = "A")) = false from rfl]

/-- C2 (amended): total_value(date) equals cash plus, for each held
position, quantity times a single reference price shared by ALL positions:
the close of the first row of the whole bar-table snapshot for that date
(whatever that row's symbol) when the snapshot is non-empty, and only when
the whole snapshot is empty does each position fall back to its own last
recorded current_price. -/
theorem total_value_amended (p : Portfolio) (d : Date) (hub : Datahub) :
    total_value p d hub =
      p.cash + (match getBarsCore hub (some d) none none none false with
        | [] => (p.asset.map (fun pos => pos.quantity * pos.current_price)).sum
        | b :: _ => (p.asset.map (fun pos => pos.quantity * b.close)).sum) := by
  unfold total_value get_asset_value
  cases hdf : getBarsCore hub (some d) none none none false with
  | nil => simp only [hdf, foldl_add_map, zero_add]
  | cons b bs => simp only [hdf, foldl_add_map, zero_add]

/-! ### C3: get_bars range queries -/

theorem mem_getBarsCore_startEnd (hub : Datahub) (s e : Date)
    (symbolO : Option String) (benchmark : Bool) (b : Bar) :
    b ∈ getBarsCore hub none (some s) (some e) symbolO benchmark ↔
      b ∈ (if benchmark then hub.benchmark_df else hub.bar_df) ∧
        Date.le b.trade_date e ∧
        ∀ sym, symbolO = some sym → b.symbol = sym := by
  unfold getBarsCore
  cases symbolO with
  | none => simp [List.mem_filter]
  | some sym =>
    simp [List.mem_filter, and_assoc]
    intro _
    exact and_comm

/-- C3 counterexample: with bars on Jan 1 and Jan 2,
get_bars(start_date=Jan 2, end_date=Jan 2) returns BOTH rows — the Jan 1
row lies strictly before the requested start, contradicting "all and only
rows whose trade_date lies in [start, end]". -/
theorem get_bars_ignores_start_counterexample :
    get_bars twoDayHub none (some ⟨2025, 1, 2⟩) (some ⟨2025, 1, 2⟩) none false =
      .ok [⟨⟨2025, 1, 1⟩, "A", 1⟩, ⟨⟨2025, 1, 2⟩, "A", 2⟩] ∧
    Date.lt ⟨2025, 1, 1⟩ ⟨2025, 1, 2⟩ := by
  constructor
  · rfl
  · decide

/-- C3 (amended): get_bars raises ValueError (InvalidRange) when
start > end; but when both bounds are given the start bound is ignored
(the end-date branch wins): the result holds all and only rows with
trade_date ≤ end (filtered by symbol when one is given).  Consequently the
moving-average strategy's rolling computation at current_date sees every
bar with trade_date ≤ current_date — no future data, but not restricted to
the max(W_buy, W_sell)-day window. -/
theorem get_bars_amended :
    (∀ (hub : Datahub) (currentO : Option Date) (s e : Date)
        (symbolO : Option String) (benchmark : Bool), Date.lt e s →
      get_bars hub currentO (some s) (some e) symbolO benchmark =
        .error ("ValueError: start_date should not be later than end_date.")) ∧
    (∀ (hub : Datahub) (s e : Date) (symbolO : Option String)
        (benchmark : Bool) (l : List Bar), Date.le s e →
      get_bars hub none (some s) (some e) symbolO benchmark = .ok l →
      ∀ b : Bar, b ∈ l ↔
        (b ∈ (if benchmark then hub.benchmark_df else hub.bar_df) ∧
          Date.le b.trade_date e ∧
          ∀ sym, symbolO = some sym → b.symbol = sym)) ∧
    (∀ (hub : Datahub) (current : Date) (ma_buy ma_sell : ℕ) (l : List Bar),
      ma_strategy_data hub current ma_buy ma_sell = .ok l →
      ∀ b : Bar, b ∈ l ↔ b ∈ hub.bar_df ∧ Date.le b.trade_date current) := by
  refine ⟨?_, ?_, ?_⟩
  · intro hub currentO s e symbolO benchmark h
    simp [get_bars, invalidRange, h]
  · intro hub s e symbolO benchmark l hse hok b
    have hnot : ¬ Date.lt e s := Date.not_lt_of_le hse
    have hinv : invalidRange (some s) (some e) = false := by
      simp [invalidRange, hnot]
    unfold get_bars at hok
    simp only [hinv] at hok
    simp only [Bool.false_eq_true, if_false, Except.ok.injEq] at hok
    rw [← hok]
    exact mem_getBarsCore_startEnd hub s e symbolO benchmark b
  · intro hub current ma_buy ma_sell l hok b
    unfold ma_strategy_data get_bars at hok
    by_cases hlt : Date.lt current (current.subDays (max ma_buy ma_sell - 1))
    · simp [invalidRange, hlt] at hok
    · have hinv : invalidRange (some (current.subDays (max ma_buy ma_sell - 1)))
          (some current) = false := by
        simp [invalidRange, hlt]
      simp only [hinv] at hok
      simp only [Bool.false_eq_true, if_false, Except.ok.injEq] at hok
      rw [← hok]
      simpa using mem_getBarsCore_startEnd hub
        (current.subDays (max ma_buy ma_sell - 1)) current none false b

/-- C3 witness: the inclusive-slice clause applied to the two-day table at
start = end = Jan 2: the Jan 1 row is in the result because its date is
≤ end, even though it precedes start. -/
theorem get_bars_amended_witness :
    Date.le ⟨2025, 1, 2⟩ ⟨2025, 1, 2⟩ ∧
    ((⟨⟨2025, 1, 1⟩, "A", 1⟩ : Bar) ∈
        ([⟨⟨2025, 1, 1⟩, "A", 1⟩, ⟨⟨2025, 1, 2⟩, "A", 2⟩] : List Bar) ↔
      ((⟨⟨2025, 1, 1⟩, "A", 1⟩ : Bar) ∈
          (if false then twoDayHub.benchmark_df else twoDayHub.bar_df) ∧
        Date.le (⟨⟨2025, 1, 1⟩, "A", 1⟩ : Bar).trade_date ⟨2025, 1, 2⟩ ∧
        ∀ sym, (none : Option String) = some sym →
          (⟨⟨2025, 1, 1⟩, "A", 1⟩ : Bar).symbol = sym)) := by
  have hle : Date.le (⟨2025, 1, 2⟩ : Date) ⟨2025, 1, 2⟩ := Date.le_refl _
  exact ⟨hle, get_bars_amended.2.1 twoDayHub ⟨2025, 1, 2⟩ ⟨2025, 1, 2⟩ none false
    [⟨⟨2025, 1, 1⟩, "A", 1⟩, ⟨⟨2025, 1, 2⟩, "A", 2⟩] hle rfl ⟨⟨2025, 1, 1⟩, "A", 1⟩⟩

/-! ### C4: main timeline -/

/-- C4 counterexample: with a daily row on Jan 1 and a benchmark row only
on Jan 2, the timeline driving run_backtest_without_broker is [Jan 1]
although the benchmark table has no row on Jan 1; the daily-and-benchmark
intersection timeline of Datahub.get_main_timeline — which the simulation
loop does not use — is empty here. -/
theorem backtest_timeline_counterexample :
    backtest_timeline disjointBenchHub = .ok [⟨2025, 1, 1⟩] ∧
    disjointBenchHub.benchmark_df.filter
      (fun b => decide (b.trade_date = ⟨2025, 1, 1⟩)) = [] ∧
    datahub_get_main_timeline disjointBenchHub = [] := by
  refine ⟨rfl, rfl, rfl⟩

/-- C4 (amended): the timeline driving run_backtest_without_broker is
Timeline's union timeline of the daily table alone: the first-occurrence
deduplication of the daily dates — every date on it has a daily row, it is
strictly ascending with no duplicates whenever the daily table is sorted,
but a benchmark row on those dates is NOT guaranteed.  The
daily-intersect-benchmark timeline the claim describes is computed by
Datahub.get_main_timeline (a date is on it iff both tables are non-empty
and both have a row on the date), which the simulation loop does not use. -/
theorem backtest_timeline_amended (hub : Datahub) :
    (hub.bar_df ≠ [] →
      backtest_timeline hub = .ok (uniqueList (hub.bar_df.map (·.trade_date))) ∧
      (∀ d, d ∈ uniqueList (hub.bar_df.map (·.trade_date)) ↔
        ∃ b ∈ hub.bar_df, b.trade_date = d) ∧
      ((hub.bar_df.map (·.trade_date)).Pairwise Date.le →
        (uniqueList (hub.bar_df.map (·.trade_date))).Pairwise Date.lt)) ∧
    (∀ d, d ∈ datahub_get_main_timeline hub ↔
      (hub.bar_df ≠ [] ∧ hub.benchmark_df ≠ [] ∧
        (∃ b ∈ hub.bar_df, b.trade_date = d) ∧
        (∃ b ∈ hub.benchmark_df, b.trade_date = d))) := by
  constructor
  · intro hne
    refine ⟨?_, ?_, ?_⟩
    · simp [backtest_timeline, timeline_get_main_timeline, hne]
    · intro d
      rw [mem_uniqueList]
      simp
    · exact uniqueList_pairwise_lt _
  · intro d
    unfold datahub_get_main_timeline
    by_cases h : hub.bar_df = [] ∨ hub.benchmark_df = []
    · simp only [h, if_true, List.not_mem_nil, false_iff]
      rintro ⟨h1, h2, _, _⟩
      rcases h with h | h
      · exact h1 h
      · exact h2 h
    · push_neg at h
      simp only [h.1, h.2, or_self, if_false, mem_sortDates, List.mem_filter,
        mem_uniqueList, List.mem_map, decide_eq_true_eq, ne_eq,
        not_false_iff, true_and]

/-- C4 witness: the amended theorem applied to the disjoint scenario. -/
theorem backtest_timeline_amended_witness :
    disjointBenchHub.bar_df ≠ [] ∧
    backtest_timeline disjointBenchHub =
      .ok (uniqueList (disjointBenchHub.bar_df.map (·.trade_date))) := by
  have h : disjointBenchHub.bar_df ≠ [] := by simp [disjointBenchHub]
  exact ⟨h, ((backtest_timeline_amended disjointBenchHub).1 h).1⟩

/-! ### C5: buy/sell error conditions -/

/-- C5 counterexample: a two-row buy order against 200 cash executes its
first row (cost 100) and then raises on the second (cost 1000): the error
is raised, but cash has dropped to 100, a position exists, and one trade
has been logged — the portfolio is NOT left unchanged. -/
theorem buy_partial_execution_counterexample :
    (buy smallCashPortfolio twoRowBuyOrder).2 = some ("InsufficientCash") ∧
    (buy smallCashPortfolio twoRowBuyOrder).1 ≠ smallCashPortfolio ∧
    (buy smallCashPortfolio twoRowBuyOrder).1.cash = 100 ∧
    (buy smallCashPortfolio twoRowBuyOrder).1.trade_log.length = 1 := by
  refine ⟨?_, ?_, ?_, ?_⟩ <;>
    norm_num [buy, buyRow, buyUpdate, smallCashPortfolio, twoRowBuyOrder]

/-- C5 (amended): for a single-row order, buy raises exactly when the row's
notional exceeds available cash and leaves the portfolio unchanged when it
does, and sell raises exactly when the symbol is not held or the quantity
exceeds the held quantity and leaves the portfolio unchanged when it does;
for a multi-row order the raising row itself performs no mutation, but the
rows already processed remain executed, so the operation as a whole can be
partially executed. -/
theorem buy_sell_error_amended :
    (∀ (p : Portfolio) (r : OrderRow),
      ((buy p [r]).2 ≠ none ↔ p.cash < r.quantity * r.trade_price) ∧
      (p.cash < r.quantity * r.trade_price →
        buy p [r] = (p, some ("InsufficientCash")))) ∧
    (∀ (p : Portfolio) (r : OrderRow),
      ((sell p [r]).2 ≠ none ↔
        findFirstPos p.asset r.asset = none ∨
        ∃ pos, findFirstPos p.asset r.asset = some pos ∧
          pos.quantity < r.quantity) ∧
      ((sell p [r]).2 ≠ none → (sell p [r]).1 = p)) := by
  constructor
  · intro p r
    by_cases h : p.cash < r.quantity * r.trade_price
    · constructor
      · simp [buy, buyRow, h]
      · intro _
        simp [buy, buyRow, h]
    · constructor
      · simp [buy, buyRow, h]
      · intro h2
        exact absurd h2 h
  · intro p r
    cases hf : findFirstPos p.asset r.asset with
    | none =>
      constructor
      · simp [sell, sellRow, hf]
      · intro _
        simp [sell, sellRow, hf]
    | some pos =>
      by_cases h : pos.quantity < r.quantity
      · constructor
        · simp [sell, sellRow, hf, h]
        · intro _
          simp [sell, sellRow, hf, h]
      · constructor
        · simp [sell, sellRow, hf, h]
        · intro h2
          simp [sell, sellRow, hf, h] at h2

/-- C5 witness: a 1-share buy at price 1 against zero cash raises
InsufficientCash and leaves the portfolio unchanged. -/
theorem buy_sell_error_amended_witness :
    brokePortfolio.cash < (1 : ℚ) * 1 ∧
    buy brokePortfolio [⟨⟨2025, 1, 2⟩, "A", "BUY", 1, 1⟩] =
      (brokePortfolio, some ("InsufficientCash")) := by
  have h : brokePortfolio.cash < (1 : ℚ) * 1 := by norm_num [brokePortfolio]
  exact ⟨h,
    (buy_sell_error_amended.1 brokePortfolio ⟨⟨2025, 1, 2⟩, "A", "BUY", 1, 1⟩).2 h⟩

/-! ### C7: equal-weight position manager -/

theorem get_min_lot_cast_pos (s : String) : (0 : ℚ) < (get_min_lot s : ℚ) := by
  unfold get_min_lot
  split <;> norm_num

theorem floor_mul_lot_pos_multiple (x L : ℚ) (hL : 0 < L)
    (hq : L ≤ (⌊x⌋ : ℚ) * L) :
    ∃ k : ℤ, 1 ≤ k ∧ (⌊x⌋ : ℚ) * L = (k : ℚ) * L :=
  ⟨⌊x⌋, by exact_mod_cast (le_mul_iff_one_le_left hL).mp hq, rfl⟩

/-- C7 counterexample: the symbol "688A8" starts with '688' but is not all
digits, so get_min_lot gives 100 while the claim's prefix-only rule gives
200; with one BUY signal, 15000 cash and close 100, the code emits a BUY
of 100 shares, whereas under the claimed 200-share lot the computed
quantity floor(150/200)*200 = 0 is below one lot and no order would be
emitted. -/
theorem min_lot_claim_counterexample :
    get_min_lot "688A8" = 100 ∧
    claim_min_lot "688A8" = 200 ∧
    transform_signals_to_orders sigs688A8 cashOnlyPortfolio
        (fun _ => 100) ⟨2025, 1, 2⟩ =
      [⟨⟨2025, 1, 2⟩, "688A8", "BUY", 100, 100⟩] ∧
    (⌊(15000 : ℚ) / 1 / 100 / ((claim_min_lot "688A8" : ℕ) : ℚ)⌋ : ℚ) *
        ((claim_min_lot "688A8" : ℕ) : ℚ) = 0 := by
  refine ⟨rfl, rfl, ?_, ?_⟩
  · norm_num [transform_signals_to_orders, sigs688A8, cashOnlyPortfolio,
      findFirstPos, List.filterMap, List.filter,
      show strUpper "BUY" = "BUY" from rfl,
      show (decide (("BUY" : String) = "SELL")) = false from rfl,
      show (decide (("BUY" : String) = "BUY")) = true from rfl,
      show get_min_lot "688A8" = 100 from rfl]
  · norm_num [show claim_min_lot "688A8" = 200 from rfl]

set_option maxHeartbeats 1000000 in
/-- C7 (amended): for n ≥ 1 BUY signals (after the code's upper-casing of
the signal column) and positive cash, the BUY orders the position manager
emits are exactly: allocated = cash / n computed once up front from the
pre-step cash, and for each BUY symbol with close price P and lot size
L — where L = 200 exactly when the symbol code is ALL DIGITS and starts
with '688', otherwise L = 100 — a BUY order of quantity
floor(allocated/P/L)*L exactly when that quantity is at least one lot,
silently none otherwise; moreover every emitted BUY quantity is a positive
integer multiple of the symbol's lot. -/
theorem equal_weight_orders_amended (signals : List SignalRow) (p : Portfolio)
    (close : String → ℚ) (t : Date) :
    (1 ≤ ((signals.map (fun r => { r with signal := strUpper r.signal })).filter
        (fun r => decide (r.signal = "BUY"))).length →
     0 < p.cash →
      (transform_signals_to_orders signals p close t).filter
          (fun o => decide (o.side = "BUY")) =
        claim_buy_orders
          (((signals.map (fun r => { r with signal := strUpper r.signal })).filter
            (fun r => decide (r.signal = "BUY"))).map (·.symbol)) p.cash close t) ∧
    (∀ o ∈ transform_signals_to_orders signals p close t, o.side = "BUY" →
      ∃ k : ℤ, 1 ≤ k ∧ o.quantity = (k : ℚ) * (get_min_lot o.asset : ℚ)) := by
  have memBuyOrders : ∀ (o : OrderRow) (l2 : List SignalRow) (f : SignalRow → Option OrderRow),
      o ∈ l2.filterMap f → ∃ r ∈ l2, f r = some o := by
    intro o l2 f h
    exact List.mem_filterMap.mp h
  constructor
  · intro hn hc
    unfold transform_signals_to_orders claim_buy_orders
    rw [List.filter_append]
    have hsells : (((signals.map (fun r => { r with signal := strUpper r.signal })).filter
          (fun r => decide (r.signal = "SELL"))).filterMap (fun r =>
          match findFirstPos p.asset r.symbol with
          | some pos =>
            if 0 < pos.quantity then
              some (⟨t, r.symbol, "SELL", pos.quantity, close r.symbol⟩ : OrderRow)
            else none
          | none => none)).filter (fun o => decide (o.side = "BUY")) = [] := by
      rw [List.filter_eq_nil_iff]
      intro o ho
      rcases List.mem_filterMap.mp ho with ⟨r, _, hr⟩
      split at hr
      · split at hr
        · injection hr with h2
          subst h2
          simp
        · exact absurd hr (by simp)
      · exact absurd hr (by simp)
    rw [hsells]
    have hlen : 0 < ((signals.map (fun r => { r with signal := strUpper r.signal })).filter
        (fun r => decide (r.signal = "BUY"))).length := hn
    rw [if_pos ⟨hlen, hc⟩, List.nil_append, List.filterMap_map, List.length_map]
    rw [List.filter_eq_self.mpr]
    · rfl
    · intro o ho
      simp only [] at ho
      rcases List.mem_filterMap.mp ho with ⟨r, _, hr⟩
      try simp only [] at hr
      split at hr
      · injection hr with h2
        subst h2
        simp
      · exact absurd hr (by simp)
  · intro o ho hside
    unfold transform_signals_to_orders at ho
    rcases List.mem_append.mp ho with h | h
    · rcases List.mem_filterMap.mp h with ⟨r, _, hr⟩
      split at hr
      · split at hr
        · injection hr with h2
          subst h2
          simp at hside
        · exact absurd hr (by simp)
      · exact absurd hr (by simp)
    · by_cases hcond : 0 < ((signals.map (fun r => { r with signal := strUpper r.signal })).filter
          (fun r => decide (r.signal = "BUY"))).length ∧ 0 < p.cash
      · rw [if_pos hcond] at h
        try simp only [] at h
        rcases List.mem_filterMap.mp h with ⟨r, _, hr⟩
        try simp only [] at hr
        split at hr
        · rename_i hq
          injection hr with h2
          rw [← h2]
          exact floor_mul_lot_pos_multiple _ _ (get_min_lot_cast_pos r.symbol) hq
        · exact absurd hr (by simp)
      · rw [if_neg hcond] at h
        simp at h

/-- C7 witness: one lower-case 'buy' signal for symbol AAA (lot 100),
10000 cash, close 10: the emitted BUY orders are exactly the claim's,
floor(1000/100)*100 = 1000 shares. -/
theorem equal_weight_orders_amended_witness :
    (1 ≤ ((sigsLowerBuy.map (fun r => { r with signal := strUpper r.signal })).filter
        (fun r => decide (r.signal = "BUY"))).length) ∧
    (0 : ℚ) < tenKPortfolio.cash ∧
    (transform_signals_to_orders sigsLowerBuy tenKPortfolio (fun _ => 10)
        ⟨2025, 1, 2⟩).filter (fun o => decide (o.side = "BUY")) =
      claim_buy_orders
        (((sigsLowerBuy.map (fun r => { r with signal := strUpper r.signal })).filter
          (fun r => decide (r.signal = "BUY"))).map (·.symbol))
        tenKPortfolio.cash (fun _ => 10) ⟨2025, 1, 2⟩ := by
  have h1 : 1 ≤ ((sigsLowerBuy.map (fun r => { r with signal := strUpper r.signal })).filter
      (fun r => decide (r.signal = "BUY"))).length := by
    simp [sigsLowerBuy, show strUpper "buy" = "BUY" from rfl]
  have h2 : (0 : ℚ) < tenKPortfolio.cash := by norm_num [tenKPortfolio]
  exact ⟨h1, h2,
    (equal_weight_orders_amended sigsLowerBuy tenKPortfolio (fun _ => 10)
      ⟨2025, 1, 2⟩).1 h1 h2⟩

/-! ### Calendar lemmas for the drawdown interval loop -/

theorem Date.le_iff (a b : Date) :
    Date.le a b ↔ (a.year < b.year ∨ (a.year = b.year ∧
      (a.month < b.month ∨ (a.month = b.month ∧ a.day ≤ b.day)))) := by
  constructor
  · rintro (h | rfl)
    · rcases h with h | ⟨h1, h | ⟨h2, h3⟩⟩
      · exact Or.inl h
      · exact Or.inr ⟨h1, Or.inl h⟩
      · exact Or.inr ⟨h1, Or.inr ⟨h2, Nat.le_of_lt h3⟩⟩
    · exact Or.inr ⟨rfl, Or.inr ⟨rfl, Nat.le_refl _⟩⟩
  · rintro (h | ⟨h1, h | ⟨h2, h3⟩⟩)
    · exact Or.inl (Or.inl h)
    · exact Or.inl (Or.inr ⟨h1, Or.inl h⟩)
    · rcases Nat.lt_or_ge a.day b.day with h4 | h4
      · exact Or.inl (Or.inr ⟨h1, Or.inr ⟨h2, h4⟩⟩)
      · have hd : a.day = b.day := Nat.le_antisymm h3 h4
        right
        cases a
        cases b
        dsimp only at h1 h2 hd
        rw [h1, h2, hd]

theorem Date.le_trans {a b c : Date} (h1 : Date.le a b) (h2 : Date.le b c) :
    Date.le a c := by
  rcases h1 with h1 | rfl
  · rcases h2 with h2 | rfl
    · exact Or.inl (Date.lt_trans h1 h2)
    · exact Or.inl h1
  · exact h2

theorem daysInMonth_ge (y m : ℕ) : 28 ≤ daysInMonth y m := by
  unfold daysInMonth
  split_ifs <;> omega

theorem daysInMonth_le (y m : ℕ) : daysInMonth y m ≤ 31 := by
  unfold daysInMonth
  split_ifs <;> omega

theorem Date.key_lt_of_lt {a b : Date} (ha : a.Valid) (hb : b.Valid)
    (h : Date.lt a b) : a.key < b.key := by
  obtain ⟨_, ham1, ham2, had1, had2⟩ := ha
  obtain ⟨_, hbm1, hbm2, hbd1, hbd2⟩ := hb
  have h31a : daysInMonth a.year a.month ≤ 31 := daysInMonth_le _ _
  have h31b : daysInMonth b.year b.month ≤ 31 := daysInMonth_le _ _
  unfold Date.key
  rcases h with h | ⟨h1, h | ⟨h2, h3⟩⟩ <;> omega

theorem Date.key_le_of_le {a b : Date} (ha : a.Valid) (hb : b.Valid)
    (h : Date.le a b) : a.key ≤ b.key := by
  rcases h with h | rfl
  · exact Nat.le_of_lt (Date.key_lt_of_lt ha hb h)
  · exact Nat.le_refl _

theorem Date.not_le_of_key_lt {a b : Date} (ha : a.Valid) (hb : b.Valid)
    (h : b.key < a.key) : ¬ Date.le a b := by
  intro h2
  exact absurd (Date.key_le_of_le ha hb h2) (by omega)

theorem Date.nextDay_valid {d : Date} (hv : d.Valid) : d.nextDay.Valid := by
  obtain ⟨h1, h2, h3, h4, h5⟩ := hv
  unfold Date.nextDay Date.Valid
  have h28a : 28 ≤ daysInMonth d.year (d.month + 1) := daysInMonth_ge _ _
  have h28b : 28 ≤ daysInMonth (d.year + 1) 1 := daysInMonth_ge _ _
  split_ifs <;> dsimp only <;> omega

theorem Date.lt_nextDay {d : Date} (hv : d.Valid) : Date.lt d d.nextDay := by
  obtain ⟨h1, h2, h3, h4, h5⟩ := hv
  unfold Date.nextDay Date.lt
  split_ifs <;> dsimp only <;> omega

theorem Date.nextDay_le_of_lt {a b : Date} (ha : a.Valid) (hb : b.Valid)
    (h : Date.lt a b) : Date.le a.nextDay b := by
  obtain ⟨ha1, ha2, ha3, ha4, ha5⟩ := ha
  obtain ⟨hb1, hb2, hb3, hb4, hb5⟩ := hb
  rw [Date.le_iff]
  unfold Date.nextDay
  rcases h with h | ⟨h1, h | ⟨h2, h3⟩⟩
  · split_ifs <;> dsimp only <;> omega
  · split_ifs <;> dsimp only <;> omega
  · have hdim : daysInMonth b.year b.month = daysInMonth a.year a.month := by
      rw [h1, h2]
    split_ifs <;> dsimp only <;> omega

theorem Date.addMonths_valid {d : Date} (k : ℕ) (hv : d.Valid) :
    (d.addMonths k).Valid := by
  obtain ⟨h1, h2, h3, h4, h5⟩ := hv
  unfold Date.addMonths Date.Valid
  dsimp only
  have h28 : 28 ≤ daysInMonth (d.year + (d.month - 1 + k) / 12)
      ((d.month - 1 + k) % 12 + 1) := daysInMonth_ge _ _
  have hm : (d.month - 1 + k) % 12 < 12 := Nat.mod_lt _ (by omega)
  omega

theorem Date.lt_addMonths (d : Date) (k : ℕ) (hk : 1 ≤ k) (hv : d.Valid) :
    Date.lt d (d.addMonths k) := by
  obtain ⟨h1, h2, h3, h4, h5⟩ := hv
  unfold Date.addMonths Date.lt
  dsimp only
  omega

theorem Date.le_prevDay_addMonths (d : Date) (k : ℕ) (hk : 1 ≤ k)
    (hv : d.Valid) : Date.le d ((d.addMonths k).prevDay) := by
  obtain ⟨h1, h2, h3, h4, h5⟩ := hv
  rw [Date.le_iff]
  unfold Date.addMonths Date.prevDay
  dsimp only
  have hA := daysInMonth_ge (d.year + (d.month - 1 + k) / 12)
    ((d.month - 1 + k) % 12 + 1)
  have hB := daysInMonth_le (d.year + (d.month - 1 + k) / 12)
    ((d.month - 1 + k) % 12 + 1)
  have hC := daysInMonth_ge (d.year + (d.month - 1 + k) / 12)
    ((d.month - 1 + k) % 12 + 1 - 1)
  have hD := daysInMonth_le d.year d.month
  split_ifs <;> dsimp only <;> omega

theorem Date.prevDay_addMonths_valid (d : Date) (k : ℕ) (hk : 1 ≤ k)
    (hv : d.Valid) : ((d.addMonths k).prevDay).Valid := by
  obtain ⟨h1, h2, h3, h4, h5⟩ := hv
  unfold Date.addMonths Date.prevDay Date.Valid
  dsimp only
  have hA := daysInMonth_ge (d.year + (d.month - 1 + k) / 12)
    ((d.month - 1 + k) % 12 + 1)
  have hB := daysInMonth_le (d.year + (d.month - 1 + k) / 12)
    ((d.month - 1 + k) % 12 + 1)
  have hC := daysInMonth_ge (d.year + (d.month - 1 + k) / 12)
    ((d.month - 1 + k) % 12 + 1 - 1)
  have hE : daysInMonth (d.year + (d.month - 1 + k) / 12 - 1) 12 = 31 := by
    unfold daysInMonth
    norm_num
  split_ifs <;> dsimp only <;> omega

theorem ddIntervals_stop (ser : List (Date × ℚ)) (months : ℕ) (endD : Date)
    (fuel : ℕ) (cs : Date) (h : ¬ Date.le cs endD) :
    ddIntervals ser months endD fuel cs = [] := by
  cases fuel with
  | zero => rfl
  | succ n => simp [ddIntervals, h]

theorem ddIntervals_chain (ser : List (Date × ℚ)) (months : ℕ) (endD : Date)
    (hm : 1 ≤ months) (hE : endD.Valid) :
    ∀ (fuel : ℕ) (cs : Date), cs.Valid → endD.key < cs.key + fuel →
      BucketsFrom ser months endD cs (ddIntervals ser months endD fuel cs) := by
  intro fuel
  induction fuel with
  | zero =>
    intro cs hv hk
    show ¬ Date.le cs endD
    exact Date.not_le_of_key_lt hv hE (by omega)
  | succ fuel ih =>
    intro cs hv hk
    by_cases hle : Date.le cs endD
    · rw [ddIntervals, if_pos hle]
      show Date.le cs endD ∧ _ ∧ _ ∧ _ ∧ _
      refine ⟨hle, rfl, rfl, rfl, ?_⟩
      have hce0v : ((cs.addMonths months).prevDay).Valid :=
        Date.prevDay_addMonths_valid cs months hm hv
      have hce0ge : Date.le cs ((cs.addMonths months).prevDay) :=
        Date.le_prevDay_addMonths cs months hm hv
      have hcev : (if Date.lt endD (cs.addMonths months).prevDay then endD
          else (cs.addMonths months).prevDay).Valid := by
        split
        · exact hE
        · exact hce0v
      have hcege : Date.le cs (if Date.lt endD (cs.addMonths months).prevDay
          then endD else (cs.addMonths months).prevDay) := by
        split
        · exact hle
        · exact hce0ge
      refine ih _ (Date.nextDay_valid hcev) ?_
      have hk1 : cs.key ≤ (if Date.lt endD (cs.addMonths months).prevDay
          then endD else (cs.addMonths months).prevDay).key :=
        Date.key_le_of_le hv hcev hcege
      have hk2 : (if Date.lt endD (cs.addMonths months).prevDay then endD
          else (cs.addMonths months).prevDay).key <
          (if Date.lt endD (cs.addMonths months).prevDay then endD
          else (cs.addMonths months).prevDay).nextDay.key :=
        Date.key_lt_of_lt hcev (Date.nextDay_valid hcev) (Date.lt_nextDay hcev)
      omega
    · rw [ddIntervals_stop ser months endD (fuel + 1) cs hle]
      exact hle

theorem bucketsFrom_first (ser : List (Date × ℚ)) (months : ℕ) (endD cs : Date)
    (b : (Date × Date) × ℚ) (rest : List ((Date × Date) × ℚ))
    (h : BucketsFrom ser months endD cs (b :: rest)) : b.1.1 = cs := by
  obtain ⟨⟨s, e⟩, q⟩ := b
  exact h.2.1

theorem bucketsFrom_chain (ser : List (Date × ℚ)) (months : ℕ) (endD : Date) :
    ∀ (l : List ((Date × Date) × ℚ)) (cs : Date),
      BucketsFrom ser months endD cs l →
      List.Chain' (fun a b => b.1.1 = Date.nextDay a.1.2) l := by
  intro l
  induction l with
  | nil => intro cs _; exact List.chain'_nil
  | cons a rest ih =>
    intro cs h
    obtain ⟨⟨s, e⟩, q⟩ := a
    obtain ⟨_, _, _, _, hrest⟩ := h
    cases rest with
    | nil => exact List.chain'_singleton _
    | cons b rest2 =>
      rw [List.chain'_cons]
      exact ⟨bucketsFrom_first ser months endD _ b rest2 hrest, ih _ hrest⟩

theorem bucketsFrom_fields (ser : List (Date × ℚ)) (months : ℕ) (endD : Date) :
    ∀ (l : List ((Date × Date) × ℚ)) (cs : Date),
      BucketsFrom ser months endD cs l →
      ∀ b ∈ l,
        b.1.2 = (if Date.lt endD ((b.1.1.addMonths months).prevDay) then endD
          else (b.1.1.addMonths months).prevDay) ∧
        b.2 = bucketDD ((ser.filter (fun pr =>
          decide (Date.le b.1.1 pr.1) && decide (Date.le pr.1 b.1.2))).map (·.2)) := by
  intro l
  induction l with
  | nil => intro cs _ b hb; exact absurd hb (by simp)
  | cons a rest ih =>
    intro cs h b hb
    obtain ⟨⟨s, e⟩, q⟩ := a
    obtain ⟨_, hs, he, hq, hrest⟩ := h
    rcases List.mem_cons.mp hb with hb | hb
    · subst hb
      subst hs
      exact ⟨he, by rw [hq, he]⟩
    · exact ih _ hrest b hb

theorem bucketsFrom_last_end (ser : List (Date × ℚ)) (months : ℕ) (endD : Date)
    (hm : 1 ≤ months) (hE : endD.Valid) :
    ∀ (l : List ((Date × Date) × ℚ)) (cs : Date), cs.Valid →
      BucketsFrom ser months endD cs l →
      ∀ h : l ≠ [], (l.getLast h).1.2 = endD := by
  intro l
  induction l with
  | nil => intro cs _ _ h; exact absurd rfl h
  | cons a rest ih =>
    intro cs hv h hne
    obtain ⟨⟨s, e⟩, q⟩ := a
    obtain ⟨hle, hs, he, hq, hrest⟩ := h
    have hce0v : ((cs.addMonths months).prevDay).Valid :=
      Date.prevDay_addMonths_valid cs months hm hv
    have hev : e.Valid := by
      rw [he]
      split
      · exact hE
      · exact hce0v
    cases rest with
    | nil =>
      have hstop : ¬ Date.le e.nextDay endD := hrest
      have hele : Date.le e endD := by
        rw [he]
        split
        · exact Date.le_refl _
        · rename_i hnot
          exact Date.le_of_not_lt hnot
      have : ¬ Date.lt e endD := by
        intro hlt
        exact hstop (Date.nextDay_le_of_lt hev hE hlt)
      simp only [List.getLast_singleton]
      rcases hele with hlt | rfl
      · exact absurd hlt this
      · rfl
    | cons b rest2 =>
      rw [List.getLast_cons (by simp)]
      exact ih _ (Date.nextDay_valid hev) hrest (by simp)

theorem bucketsFrom_ne_nil (ser : List (Date × ℚ)) (months : ℕ) (endD cs : Date)
    (l : List ((Date × Date) × ℚ)) (hle : Date.le cs endD)
    (h : BucketsFrom ser months endD cs l) : l ≠ [] := by
  intro heq
  subst heq
  exact h hle

/-! ### The per-bucket drawdown equals the maximum pairwise decline -/

theorem ddOf_cons (v : ℚ) (vs : List ℚ) :
    ddOf (v :: vs) = ((v - v) / v) :: ddList v vs := rfl

theorem ddList_cons (c v : ℚ) (vs : List ℚ) :
    ddList c (v :: vs) =
      ((max c v - v) / max c v) :: ddList (max c v) vs := rfl

theorem ddList_length (c : ℚ) (vs : List ℚ) : (ddList c vs).length = vs.length := by
  induction vs generalizing c with
  | nil => rfl
  | cons v vs ih => simp [ddList_cons, ih]

theorem ddOf_length (l : List ℚ) : (ddOf l).length = l.length := by
  cases l with
  | nil => rfl
  | cons v vs => simp [ddOf_cons, ddList_length]

theorem max_sub_div (a b v : ℚ) (ha : 0 < a) (hb : 0 < b) (hv : 0 < v) :
    (max a b - v) / max a b = max ((a - v) / a) ((b - v) / b) := by
  have key : ∀ x y : ℚ, 0 < x → 0 < y → x ≤ y →
      (x - v) / x ≤ (y - v) / y := by
    intro x y hx hy hxy
    rw [sub_div, sub_div, div_self (ne_of_gt hx), div_self (ne_of_gt hy)]
    have : v / y ≤ v / x := by
      rw [div_le_div_iff₀ hy hx]
      exact mul_le_mul_of_nonneg_left hxy (le_of_lt hv)
    linarith
  rcases le_total a b with h | h
  · rw [max_eq_right h, max_eq_right (key a b ha hb h)]
  · rw [max_eq_left h, max_eq_left (key b a hb ha h)]

theorem ddList_max_seed (vs : List ℚ) :
    ∀ a b : ℚ, 0 < a → 0 < b → (∀ v ∈ vs, 0 < v) →
      ddList (max a b) vs = List.zipWith max (ddList a vs) (ddList b vs) := by
  induction vs with
  | nil => intro a b _ _ _; rfl
  | cons v vs ih =>
    intro a b ha hb hpos
    have hv : 0 < v := hpos v (by simp)
    rw [ddList_cons, ddList_cons, ddList_cons, List.zipWith_cons_cons]
    have hmax : max (max a b) v = max (max a v) (max b v) := by
      rw [show max (max a b) v = max (max a b) (max v v) from by rw [max_self],
        max_max_max_comm]
    rw [hmax, max_sub_div (max a v) (max b v) v (lt_max_of_lt_left ha)
      (lt_max_of_lt_left hb) hv]
    rw [ih (max a v) (max b v) (lt_max_of_lt_left ha) (lt_max_of_lt_left hb)
      (fun u hu => hpos u (by simp [hu]))]

theorem ddList_seed_absorb (vs : List ℚ) (a b : ℚ) (ha : 0 < a) (hb : 0 < b)
    (hab : a ≤ b) (hpos : ∀ v ∈ vs, 0 < v) :
    List.zipWith max (ddList a vs) (ddList b vs) = ddList b vs := by
  rw [← ddList_max_seed vs a b ha hb hpos, max_eq_right hab]

theorem zipWith_max_assoc (A : List ℚ) :
    ∀ B C : List ℚ, List.zipWith max (List.zipWith max A B) C =
      List.zipWith max A (List.zipWith max B C) := by
  induction A with
  | nil => intro B C; rfl
  | cons a A ih =>
    intro B C
    cases B with
    | nil => rfl
    | cons b B =>
      cases C with
      | nil => rfl
      | cons c C => simp [List.zipWith_cons_cons, ih, max_assoc]

theorem zip_ddOf_ddList (ws : List ℚ) (w : ℚ) (hw : 0 < w)
    (hpos : ∀ v ∈ ws, 0 < v) :
    List.zipWith max (ddOf ws) (ddList w ws) = ddList w ws := by
  cases ws with
  | nil => rfl
  | cons u us =>
    have hu : 0 < u := hpos u (by simp)
    rw [ddOf_cons, ddList_cons, List.zipWith_cons_cons]
    have h0 : (u - u) / u = 0 := by rw [sub_self, zero_div]
    have hhead : max ((u - u) / u) ((max w u - u) / max w u) =
        (max w u - u) / max w u := by
      rw [h0]
      refine max_eq_right ?_
      apply div_nonneg
      · simp [sub_nonneg, le_max_right]
      · exact le_of_lt (lt_max_of_lt_left hw)
    rw [hhead, ddList_seed_absorb us u (max w u) hu (lt_max_of_lt_left hw)
      (le_max_right w u) (fun v hv => hpos v (by simp [hv]))]

theorem ddList_eq_zip_map (xs : List ℚ) :
    ∀ c : ℚ, 0 < c → (∀ v ∈ xs, 0 < v) →
      ddList c xs =
        List.zipWith max (xs.map (fun v => (c - v) / c)) (ddOf xs) := by
  induction xs with
  | nil => intro c _ _; rfl
  | cons w ws ih =>
    intro c hc hpos
    have hw : 0 < w := hpos w (by simp)
    rw [ddList_cons, ddOf_cons, List.map_cons, List.zipWith_cons_cons]
    rw [max_sub_div c w w hc hw hw]
    rw [ddList_max_seed ws c w hc hw (fun v hv => hpos v (by simp [hv]))]
    rw [ih c hc (fun v hv => hpos v (by simp [hv]))]
    rw [zipWith_max_assoc, zip_ddOf_ddList ws w hw (fun v hv => hpos v (by simp [hv]))]

theorem foldl_max_init_le (l : List ℚ) : ∀ init : ℚ, init ≤ l.foldl max init := by
  induction l with
  | nil => intro init; exact le_refl _
  | cons x xs ih =>
    intro init
    exact le_trans (le_max_left init x) (ih (max init x))

theorem foldl_max_zip (A : List ℚ) :
    ∀ (B : List ℚ) (a b : ℚ), A.length = B.length →
      (List.zipWith max A B).foldl max (max a b) =
        max (A.foldl max a) (B.foldl max b) := by
  induction A with
  | nil =>
    intro B a b hlen
    cases B with
    | nil => rfl
    | cons => simp at hlen
  | cons x A ih =>
    intro B a b hlen
    cases B with
    | nil => simp at hlen
    | cons y B =>
      rw [List.zipWith_cons_cons, List.foldl_cons, List.foldl_cons, List.foldl_cons]
      rw [show max (max a b) (max x y) = max (max a x) (max b y) from
        max_max_max_comm a b x y]
      exact ih B (max a x) (max b y) (by simpa using hlen)

theorem foldl_max_zip0 (A B : List ℚ) (hlen : A.length = B.length) :
    (List.zipWith max A B).foldl max 0 =
      max (A.foldl max 0) (B.foldl max 0) := by
  have := foldl_max_zip A B 0 0 hlen
  simpa using this

theorem fold0_ddOf (xs : List ℚ) : (ddOf xs).foldl max 0 = bucketDD xs := by
  cases xs with
  | nil => rfl
  | cons u us =>
    rw [ddOf_cons, List.foldl_cons, bucketDD, if_neg (by simp)]
    show List.foldl max (max 0 ((u - u) / u)) (ddList u us) = seriesMax (ddOf (u :: us))
    rw [sub_self, zero_div, max_self]
    rw [ddOf_cons, sub_self, zero_div]
    rfl

theorem bucketDD_eq_pairsDecline (l : List ℚ) (hpos : ∀ v ∈ l, 0 < v) :
    bucketDD l = pairsDecline l := by
  induction l with
  | nil => rfl
  | cons x xs ih =>
    have hx : 0 < x := hpos x (by simp)
    have hxs : ∀ v ∈ xs, 0 < v := fun v hv => hpos v (by simp [hv])
    rw [← fold0_ddOf, ddOf_cons, List.foldl_cons, sub_self, zero_div, max_self]
    rw [ddList_eq_zip_map xs x hx hxs]
    rw [foldl_max_zip0 _ _ (by rw [List.length_map, ddOf_length])]
    rw [List.foldl_map]
    rw [fold0_ddOf]
    rw [ih hxs]
    rfl

/-! ### Sorted series and the idxmax fold -/

theorem sortByDate_sorted_id (l : List (Date × ℚ))
    (h : l.Pairwise (fun a b => Date.le a.1 b.1)) : sortByDate l = l := by
  induction l with
  | nil => rfl
  | cons x xs ih =>
    rw [List.pairwise_cons] at h
    rw [sortByDate, ih h.2]
    cases xs with
    | nil => rfl
    | cons y ys =>
      rw [insertPair, if_pos (h.1 y (by simp))]

theorem le_lastDateOf (x : Date × ℚ) (xs : List (Date × ℚ))
    (hp : (x :: xs).Pairwise (fun a b => Date.le a.1 b.1)) :
    Date.le x.1 (lastDateOf x.1 xs) := by
  induction xs generalizing x with
  | nil => exact Date.le_refl _
  | cons p ps ih =>
    rw [List.pairwise_cons] at hp
    have h1 : Date.le x.1 p.1 := hp.1 p (by simp)
    have h2 : Date.le p.1 (lastDateOf p.1 ps) := ih p hp.2
    exact Date.le_trans h1 h2

theorem lastDateOf_valid (xs : List (Date × ℚ)) :
    ∀ d : Date, d.Valid → (∀ p ∈ xs, (p.1).Valid) → (lastDateOf d xs).Valid := by
  induction xs with
  | nil => intro d hd _; exact hd
  | cons p ps ih =>
    intro d _ hall
    exact ih p.1 (hall p (by simp)) (fun q hq => hall q (by simp [hq]))

theorem idxmax_fold_spec (ts : List ((Date × Date) × ℚ)) :
    ∀ t0 : (Date × Date) × ℚ,
      (ts.foldl (fun best q => if best.2 < q.2 then q else best) t0) ∈ t0 :: ts ∧
      (ts.foldl (fun best q => if best.2 < q.2 then q else best) t0).2 =
        (ts.map (·.2)).foldl max t0.2 ∧
      (∀ b ∈ t0 :: ts, b.2 ≤ (ts.map (·.2)).foldl max t0.2) := by
  induction ts with
  | nil =>
    intro t0
    refine ⟨by simp, rfl, ?_⟩
    intro b hb
    rcases List.mem_cons.mp hb with rfl | hb
    · exact le_refl _
    · exact absurd hb (by simp)
  | cons q ts ih =>
    intro t0
    rw [List.foldl_cons, List.map_cons, List.foldl_cons]
    have hstep : (if t0.2 < q.2 then q else t0).2 = max t0.2 q.2 := by
      split
      · rename_i h
        exact (max_eq_right (le_of_lt h)).symm
      · rename_i h
        exact (max_eq_left (not_lt.mp h)).symm
    obtain ⟨hmem, hval, hbound⟩ := ih (if t0.2 < q.2 then q else t0)
    refine ⟨?_, ?_, ?_⟩
    · rcases List.mem_cons.mp hmem with h | h
      · rw [h]
        split
        · simp
        · simp
      · simp [h]
    · rw [hval, hstep]
    · intro b hb
      have hbound2 : ∀ b2 ∈ (if t0.2 < q.2 then q else t0) :: ts,
          b2.2 ≤ (ts.map (·.2)).foldl max (max t0.2 q.2) := by
        intro b2 hb2
        have hx := hbound b2 hb2
        rwa [hstep] at hx
      rcases List.mem_cons.mp hb with rfl | hb
      · exact le_trans (le_max_left b.2 q.2) (foldl_max_init_le _ _)
      · rcases List.mem_cons.mp hb with rfl | hb2
        · exact le_trans (le_max_right t0.2 b.2) (foldl_max_init_le _ _)
        · exact hbound2 b (by simp [hb2])

set_option maxHeartbeats 1600000 in
/-- C6: drawdown partitions the (sorted, positive) value series into
consecutive buckets of interval_months calendar months starting at the
first date — each bucket ends at min(start + months - 1 day, last date),
the next starts the following day, the last ends exactly at the last
date — and each bucket carries (rounded to 4 decimals) the maximum
proportional decline (v_i - v_j)/v_i over pairs i ≤ j of its slice of the
series, 0 for a bucket with no data; the returned overall maximum is the
largest bucket drawdown and the returned range is an owning bucket's
(start, end).  For the example series [100,110,105,120,115,130,125,140,
135,150] on ten consecutive days with interval_months = 1 the whole span
is a single bucket (2025-01-01, 2025-01-10) whose drawdown is
round4(5/110) = 0.0455, and that pair is the returned global maximum. -/
theorem drawdown_interval_spec :
    (drawdown exampleSeries 1 =
      .ok ([((⟨2025, 1, 1⟩, ⟨2025, 1, 10⟩), 455/10000)],
        (455/10000, (⟨2025, 1, 1⟩, ⟨2025, 1, 10⟩)))) ∧
    (∀ (x : Date × ℚ) (xs : List (Date × ℚ)) (months : ℕ)
        (tbl : List ((Date × Date) × ℚ)) (mx : ℚ) (rng : Date × Date),
      1 ≤ months →
      (∀ pr ∈ x :: xs, (pr.1).Valid) →
      (x :: xs).Pairwise (fun a b => Date.lt a.1 b.1) →
      (∀ pr ∈ x :: xs, 0 < pr.2) →
      drawdown (x :: xs) months = .ok (tbl, (mx, rng)) →
      ∃ hne : tbl ≠ [],
        (tbl.head hne).1.1 = x.1 ∧
        (tbl.getLast hne).1.2 = lastDateOf x.1 xs ∧
        List.Chain' (fun a b => b.1.1 = Date.nextDay a.1.2) tbl ∧
        (∀ b ∈ tbl,
          b.1.2 = (if Date.lt (lastDateOf x.1 xs) ((b.1.1.addMonths months).prevDay)
            then lastDateOf x.1 xs else (b.1.1.addMonths months).prevDay)) ∧
        (∀ b ∈ tbl, b.2 = round4 (pairsDecline (((x :: xs).filter (fun pr =>
          decide (Date.le b.1.1 pr.1) && decide (Date.le pr.1 b.1.2))).map (·.2)))) ∧
        (∀ b ∈ tbl, b.2 ≤ mx) ∧
        (∃ b ∈ tbl, b.1 = rng ∧ b.2 = mx)) := by
  constructor
  · have hfilter : (List.filter (fun pr =>
        decide (Date.le ⟨2025, 1, 1⟩ pr.1) &&
        decide (Date.le pr.1 (⟨2025, 1, 10⟩ : Date)))
        [((⟨2025, 1, 1⟩ : Date), (100 : ℚ)), (⟨2025, 1, 2⟩, 110), (⟨2025, 1, 3⟩, 105),
         (⟨2025, 1, 4⟩, 120), (⟨2025, 1, 5⟩, 115), (⟨2025, 1, 6⟩, 130),
         (⟨2025, 1, 7⟩, 125), (⟨2025, 1, 8⟩, 140), (⟨2025, 1, 9⟩, 135),
         (⟨2025, 1, 10⟩, 150)]).map (·.2) =
        [100, 110, 105, 120, 115, 130, 125, 140, 135, 150] := rfl
    have hbd : bucketDD ((List.filter (fun pr =>
        decide (Date.le ⟨2025, 1, 1⟩ pr.1) &&
        decide (Date.le pr.1 (⟨2025, 1, 10⟩ : Date)))
        [((⟨2025, 1, 1⟩ : Date), (100 : ℚ)), (⟨2025, 1, 2⟩, 110), (⟨2025, 1, 3⟩, 105),
         (⟨2025, 1, 4⟩, 120), (⟨2025, 1, 5⟩, 115), (⟨2025, 1, 6⟩, 130),
         (⟨2025, 1, 7⟩, 125), (⟨2025, 1, 8⟩, 140), (⟨2025, 1, 9⟩, 135),
         (⟨2025, 1, 10⟩, 150)]).map (·.2)) = 1/22 := by
      rw [hfilter, bucketDD, if_neg (by simp)]
      norm_num [seriesMax, ddOf, cummaxList, cummaxGo]
    rw [drawdown]
    rw [show sortByDate exampleSeries =
        (⟨2025, 1, 1⟩, (100 : ℚ)) ::
        [(⟨2025, 1, 2⟩, 110), (⟨2025, 1, 3⟩, 105), (⟨2025, 1, 4⟩, 120),
         (⟨2025, 1, 5⟩, 115), (⟨2025, 1, 6⟩, 130), (⟨2025, 1, 7⟩, 125),
         (⟨2025, 1, 8⟩, 140), (⟨2025, 1, 9⟩, 135), (⟨2025, 1, 10⟩, 150)] from rfl]
    simp only [lastDateOf]
    rw [ddIntervals]
    have h1 : Date.le (⟨2025, 1, 1⟩ : Date) ⟨2025, 1, 10⟩ := by decide
    simp only [if_pos h1]
    simp only [show ((⟨2025, 1, 1⟩ : Date).addMonths 1).prevDay = (⟨2025, 1, 31⟩ : Date)
      from rfl]
    simp only [if_pos (show Date.lt (⟨2025, 1, 10⟩ : Date) ⟨2025, 1, 31⟩ by decide)]
    simp only [hbd]
    simp only [show (⟨2025, 1, 10⟩ : Date).nextDay = (⟨2025, 1, 11⟩ : Date) from rfl]
    rw [ddIntervals_stop _ _ _ _ _ (by decide)]
    simp only [List.map_cons, List.map_nil]
    rw [show round4 (1/22) = 455/10000 from by norm_num [round4, round_half_even]]
    rfl
  · intro x xs months tbl mx rng hm hval hsort hpos hok
    have hsle : (x :: xs).Pairwise (fun a b => Date.le a.1 b.1) :=
      hsort.imp (fun h => Date.le_of_lt h)
    have hid : sortByDate (x :: xs) = x :: xs := sortByDate_sorted_id _ hsle
    rw [drawdown, hid] at hok
    simp only [] at hok
    have hxv : (x.1).Valid := hval x (by simp)
    have hEv : (lastDateOf x.1 xs).Valid :=
      lastDateOf_valid xs x.1 hxv (fun p hp => hval p (by simp [hp]))
    have hstartle : Date.le x.1 (lastDateOf x.1 xs) := le_lastDateOf x xs hsle
    have hchain := ddIntervals_chain (x :: xs) months (lastDateOf x.1 xs) hm hEv
      ((lastDateOf x.1 xs).key + 1) x.1 hxv (by omega)
    have hneI : ddIntervals (x :: xs) months (lastDateOf x.1 xs)
        ((lastDateOf x.1 xs).key + 1) x.1 ≠ [] :=
      bucketsFrom_ne_nil _ _ _ _ _ hstartle hchain
    obtain ⟨i0, is, hI⟩ : ∃ i0 is, ddIntervals (x :: xs) months (lastDateOf x.1 xs)
        ((lastDateOf x.1 xs).key + 1) x.1 = i0 :: is := by
      cases hI : ddIntervals (x :: xs) months (lastDateOf x.1 xs)
          ((lastDateOf x.1 xs).key + 1) x.1 with
      | nil => exact absurd hI hneI
      | cons i0 is => exact ⟨i0, is, rfl⟩
    rw [hI] at hchain hok
    simp only [List.map_cons] at hok
    simp only [Except.ok.injEq, Prod.mk.injEq] at hok
    obtain ⟨htbl, hmx, hrng⟩ := hok
    subst htbl
    subst hmx
    subst hrng
    refine ⟨List.cons_ne_nil _ _, ?_, ?_, ?_, ?_, ?_, ?_, ?_⟩
    · simp only [List.head_cons]
      exact bucketsFrom_first _ _ _ _ _ _ hchain
    · show (((i0 :: is).map (fun e : (Date × Date) × ℚ => (e.1, round4 e.2))).getLast
        (by simp)).1.2 = lastDateOf x.1 xs
      rw [List.getLast_map]
      exact bucketsFrom_last_end _ _ _ hm hEv _ _ hxv hchain (List.cons_ne_nil _ _)
    · show List.Chain' (fun a b => b.1.1 = Date.nextDay a.1.2)
        ((i0 :: is).map (fun e : (Date × Date) × ℚ => (e.1, round4 e.2)))
      exact (List.chain'_map _).mpr (bucketsFrom_chain _ _ _ _ _ hchain)
    · intro b hb
      have hb2 : b ∈ (i0 :: is).map (fun e => (e.1, round4 e.2)) := hb
      rcases List.mem_map.mp hb2 with ⟨a, ha, rfl⟩
      exact (bucketsFrom_fields _ _ _ _ _ hchain a ha).1
    · intro b hb
      have hb2 : b ∈ (i0 :: is).map (fun e => (e.1, round4 e.2)) := hb
      rcases List.mem_map.mp hb2 with ⟨a, ha, rfl⟩
      have hf := (bucketsFrom_fields _ _ _ _ _ hchain a ha).2
      have hposS : ∀ v ∈ (((x :: xs).filter (fun pr =>
          decide (Date.le a.1.1 pr.1) && decide (Date.le pr.1 a.1.2))).map (·.2)),
          0 < v := by
        intro v hv
        rcases List.mem_map.mp hv with ⟨pr, hpr, rfl⟩
        exact hpos pr (List.mem_of_mem_filter hpr)
      show round4 a.2 = round4 (pairsDecline _)
      rw [hf, bucketDD_eq_pairsDecline _ hposS]
    · intro b hb
      exact (idxmax_fold_spec (is.map (fun e : (Date × Date) × ℚ => (e.1, round4 e.2)))
        (i0.1, round4 i0.2)).2.2 b hb
    · obtain ⟨hmem, hval2, _⟩ := idxmax_fold_spec
        (is.map (fun e : (Date × Date) × ℚ => (e.1, round4 e.2))) (i0.1, round4 i0.2)
      exact ⟨(is.map (fun e : (Date × Date) × ℚ => (e.1, round4 e.2))).foldl
        (fun best q => if best.2 < q.2 then q else best) (i0.1, round4 i0.2),
        hmem, rfl, hval2⟩

/-- C6 witness: the general bucket-structure statement instantiated at the
example series with interval_months = 1, every hypothesis discharged
concretely and the drawdown evaluation supplied by the first conjunct. -/
theorem drawdown_interval_spec_witness :
    ∃ hne : ([(((⟨2025, 1, 1⟩ : Date), (⟨2025, 1, 10⟩ : Date)), (455/10000 : ℚ))] :
        List ((Date × Date) × ℚ)) ≠ [],
      (([(((⟨2025, 1, 1⟩ : Date), (⟨2025, 1, 10⟩ : Date)), (455/10000 : ℚ))] :
        List ((Date × Date) × ℚ)).head hne).1.1 = (⟨2025, 1, 1⟩ : Date) ∧
      (([(((⟨2025, 1, 1⟩ : Date), (⟨2025, 1, 10⟩ : Date)), (455/10000 : ℚ))] :
        List ((Date × Date) × ℚ)).getLast hne).1.2 =
        lastDateOf ⟨2025, 1, 1⟩
          [(⟨2025, 1, 2⟩, (110 : ℚ)), (⟨2025, 1, 3⟩, 105), (⟨2025, 1, 4⟩, 120),
           (⟨2025, 1, 5⟩, 115), (⟨2025, 1, 6⟩, 130), (⟨2025, 1, 7⟩, 125),
           (⟨2025, 1, 8⟩, 140), (⟨2025, 1, 9⟩, 135), (⟨2025, 1, 10⟩, 150)] ∧
      List.Chain' (fun a b => b.1.1 = Date.nextDay a.1.2)
        ([(((⟨2025, 1, 1⟩ : Date), (⟨2025, 1, 10⟩ : Date)), (455/10000 : ℚ))] :
          List ((Date × Date) × ℚ)) ∧
      (∀ b ∈ ([(((⟨2025, 1, 1⟩ : Date), (⟨2025, 1, 10⟩ : Date)), (455/10000 : ℚ))] :
          List ((Date × Date) × ℚ)),
        b.1.2 = (if Date.lt (lastDateOf ⟨2025, 1, 1⟩
            [(⟨2025, 1, 2⟩, (110 : ℚ)), (⟨2025, 1, 3⟩, 105), (⟨2025, 1, 4⟩, 120),
             (⟨2025, 1, 5⟩, 115), (⟨2025, 1, 6⟩, 130), (⟨2025, 1, 7⟩, 125),
             (⟨2025, 1, 8⟩, 140), (⟨2025, 1, 9⟩, 135), (⟨2025, 1, 10⟩, 150)])
            ((b.1.1.addMonths 1).prevDay)
          then lastDateOf ⟨2025, 1, 1⟩
            [(⟨2025, 1, 2⟩, (110 : ℚ)), (⟨2025, 1, 3⟩, 105), (⟨2025, 1, 4⟩, 120),
             (⟨2025, 1, 5⟩, 115), (⟨2025, 1, 6⟩, 130), (⟨2025, 1, 7⟩, 125),
             (⟨2025, 1, 8⟩, 140), (⟨2025, 1, 9⟩, 135), (⟨2025, 1, 10⟩, 150)]
          else (b.1.1.addMonths 1).prevDay)) ∧
      (∀ b ∈ ([(((⟨2025, 1, 1⟩ : Date), (⟨2025, 1, 10⟩ : Date)), (455/10000 : ℚ))] :
          List ((Date × Date) × ℚ)),
        b.2 = round4 (pairsDecline (List.map (fun pr => pr.2) (List.filter
          (fun pr => decide (Date.le b.1.1 pr.1) && decide (Date.le pr.1 b.1.2))
          (((⟨2025, 1, 1⟩ : Date), (100 : ℚ)) ::
           [(⟨2025, 1, 2⟩, (110 : ℚ)), (⟨2025, 1, 3⟩, 105), (⟨2025, 1, 4⟩, 120),
            (⟨2025, 1, 5⟩, 115), (⟨2025, 1, 6⟩, 130), (⟨2025, 1, 7⟩, 125),
            (⟨2025, 1, 8⟩, 140), (⟨2025, 1, 9⟩, 135),
            (⟨2025, 1, 10⟩, 150)]))))) ∧
      (∀ b ∈ ([(((⟨2025, 1, 1⟩ : Date), (⟨2025, 1, 10⟩ : Date)), (455/10000 : ℚ))] :
          List ((Date × Date) × ℚ)), b.2 ≤ (455/10000 : ℚ)) ∧
      (∃ b ∈ ([(((⟨2025, 1, 1⟩ : Date), (⟨2025, 1, 10⟩ : Date)), (455/10000 : ℚ))] :
          List ((Date × Date) × ℚ)),
        b.1 = ((⟨2025, 1, 1⟩ : Date), (⟨2025, 1, 10⟩ : Date)) ∧
        b.2 = (455/10000 : ℚ)) := by
  refine drawdown_interval_spec.2 ((⟨2025, 1, 1⟩ : Date), (100 : ℚ))
    [(⟨2025, 1, 2⟩, (110 : ℚ)), (⟨2025, 1, 3⟩, 105), (⟨2025, 1, 4⟩, 120),
     (⟨2025, 1, 5⟩, 115), (⟨2025, 1, 6⟩, 130), (⟨2025, 1, 7⟩, 125),
     (⟨2025, 1, 8⟩, 140), (⟨2025, 1, 9⟩, 135), (⟨2025, 1, 10⟩, 150)] 1
    [(((⟨2025, 1, 1⟩ : Date), (⟨2025, 1, 10⟩ : Date)), (455/10000 : ℚ))]
    (455/10000) ((⟨2025, 1, 1⟩ : Date), (⟨2025, 1, 10⟩ : Date))
    (by decide) (by decide) (by decide) ?_ drawdown_interval_spec.1
  intro pr hpr
  fin_cases hpr <;> norm_num

/-- C9 counterexample: the metrics functions are not total over degenerate
inputs — drawdown on a zero-length value series raises ValueError (idxmax
of an empty sequence) and annual_return on a zero-length DataFrame raises
IndexError, instead of returning sentinel results. -/
theorem metrics_totality_counterexample :
    drawdown [] 1 =
      .error ("ValueError: attempt to get argmax of an empty sequence") ∧
    annual_return (fun a b => a) 0 0 0 (some []) =
      .error ("IndexError: index -1 is out of bounds") :=
  ⟨rfl, rfl⟩

/-- C9 amended: win_rate returns 0.0 on an empty trade log without touching
the log, and annual_return returns 0.0 (rounded) for a non-positive
starting value; but a zero-length value series raises — ValueError in
drawdown and IndexError in annual_return(df) — so metrics computation is
not total over all degenerate inputs. -/
theorem metrics_degenerate_amended (lp : String → ℚ) (g : Option ℚ)
    (powA : ℚ → ℚ → ℚ) (sv ev : ℚ) (td : ℤ) (m : ℕ) (h : sv ≤ 0) :
    win_rate [] lp g = (.ok 0, [], g) ∧
    annual_return powA sv ev td none = .ok 0 ∧
    drawdown [] m =
      .error ("ValueError: attempt to get argmax of an empty sequence") ∧
    annual_return powA sv ev td (some []) =
      .error ("IndexError: index -1 is out of bounds") := by
  refine ⟨rfl, ?_, rfl, rfl⟩
  simp only [annual_return, if_neg (not_lt.mpr h)]
  norm_num [round4, round_half_even]

/-- C9 witness: the amended degenerate-input behaviour at concrete inputs
(empty trade log, start value 0, empty value series). -/
theorem metrics_degenerate_amended_witness :
    win_rate [] (fun x => 0) none = (.ok 0, [], none) ∧
    annual_return (fun a b => a) 0 0 0 none = .ok 0 ∧
    drawdown [] 1 =
      .error ("ValueError: attempt to get argmax of an empty sequence") ∧
    annual_return (fun a b => a) 0 0 0 (some []) =
      .error ("IndexError: index -1 is out of bounds") :=
  metrics_degenerate_amended (fun x => 0) none (fun a b => a) 0 0 0 1 (le_refl 0)
